import Mathlib

/-!
Verification of the PII-masking sample repository.

The development shallowly embeds the three Python handlers of the repository:

* `src/batch/src/processor.py` — the job submitter (`handler`), including its
  deterministic regex fallback path (four `re.sub` calls applied in order:
  email, phone, credit card, SSN);
* `src/batch/src/monitor.py` — the job reconciler (`handler`);
* `src/Realtime/samplelambda/genai-pii-mask.py` — the realtime lambda
  (`obfuscate_pii` and `lambda_handler`).

External collaborators (S3, Bedrock, DynamoDB, pandas) are modelled as
environment records of explicit result-returning functions; exceptions are
modelled with `Except`.  The four Python regular expressions are modelled by
executable matchers over `List Char` that mirror CPython `re` semantics
(leftmost scan, greedy quantifiers with backtracking, ASCII word boundaries);
character classes are the ASCII reading of the patterns in the source.
-/

namespace PiiMask

/-! ## Character classes (ASCII reading of the Python regexes) -/

/-- Python `\w` (ASCII): letters, digits, underscore. -/
def isWordChar (c : Char) : Bool :=
  (65 ≤ c.toNat && c.toNat ≤ 90) || (97 ≤ c.toNat && c.toNat ≤ 122) ||
  (48 ≤ c.toNat && c.toNat ≤ 57) || c.toNat == 95

/-- Python `\d` (ASCII). -/
def isDigit (c : Char) : Bool := 48 ≤ c.toNat && c.toNat ≤ 57

/-- Python `\s` (ASCII): space, tab, newline, carriage return, vertical tab, form feed. -/
def psSpace (c : Char) : Bool :=
  c.toNat == 32 || c.toNat == 9 || c.toNat == 10 || c.toNat == 13 ||
  c.toNat == 11 || c.toNat == 12

/-- The class `[A-Za-z0-9._%+-]` (local part of the email pattern). -/
def localCls (c : Char) : Bool :=
  (65 ≤ c.toNat && c.toNat ≤ 90) || (97 ≤ c.toNat && c.toNat ≤ 122) ||
  (48 ≤ c.toNat && c.toNat ≤ 57) || c == '.' || c == '_' || c == '%' || c == '+' || c == '-'

/-- The class `[A-Za-z0-9.-]` (domain part of the email pattern). -/
def domCls (c : Char) : Bool :=
  (65 ≤ c.toNat && c.toNat ≤ 90) || (97 ≤ c.toNat && c.toNat ≤ 122) ||
  (48 ≤ c.toNat && c.toNat ≤ 57) || c == '.' || c == '-'

/-- The class `[A-Z|a-z]` (written exactly so in the source; it contains a literal bar). -/
def tldCls (c : Char) : Bool :=
  (65 ≤ c.toNat && c.toNat ≤ 90) || (97 ≤ c.toNat && c.toNat ≤ 122) || c == '|'

/-- The class `[-.\s]` (phone separators). -/
def phSep (c : Char) : Bool := c.toNat == 45 || c.toNat == 46 || psSpace c

/-- The class `[-\s]` (credit-card separators). -/
def ccSep (c : Char) : Bool := c.toNat == 45 || psSpace c

/-! ## Positional helpers over `List Char` suffixes -/

/-- Wordness of the first character of a suffix (`false` at end of string,
matching Python's treatment of the string edge for `\b`). -/
def headW : List Char → Bool
  | [] => false
  | c :: _ => isWordChar c

/-- Wordness of the last character of a list (`false` when empty). -/
def lastW (l : List Char) : Bool :=
  match l.getLast? with
  | some c => isWordChar c
  | none => false

/-- Wordness of the character at index `i` (`false` out of range). -/
def wordAtIdx (l : List Char) (i : Nat) : Bool :=
  match l.get? i with
  | some c => isWordChar c
  | none => false

/-- A `\b` word boundary holds at the head of suffix `l` when the previous
character's wordness `w` differs from the wordness of the next character. -/
def bdryB (w : Bool) (l : List Char) : Bool := w != headW l

/-- Length of the maximal prefix whose characters satisfy `p`
(the greedy run of a character class). -/
def run (p : Char → Bool) : List Char → Nat
  | [] => 0
  | c :: l => if p c then run p l + 1 else 0

/-- `digitsN n l` holds when the first `n` characters of `l` exist and are digits. -/
def digitsN : Nat → List Char → Bool
  | 0, _ => true
  | _ + 1, [] => false
  | n + 1, c :: l => isDigit c && digitsN n l

/-- Length (0 or 1) consumed by a greedy optional single-character class `[..]?`.
The classes used here are disjoint from what must follow them, so the greedy
choice never needs to backtrack. -/
def optSep (p : Char → Bool) (l : List Char) : Nat :=
  match l with
  | [] => 0
  | c :: _ => if p c then 1 else 0

/-! ## The four matchers

Each matcher receives the wordness `w` of the character before the current
position and the suffix `l` starting at the current position, and returns the
length of the regex match anchored at this position, if any.  They mirror the
four patterns of `processor.py` lines 129–138. -/

/-- `\b\d{3}-\d{2}-\d{4}\b` (SSN pattern). -/
def ssnMatch (w : Bool) (l : List Char) : Option Nat :=
  if bdryB w l && digitsN 3 l && (l.get? 3 == some '-') && digitsN 2 (l.drop 4) &&
     (l.get? 6 == some '-') && digitsN 4 (l.drop 7) && !headW (l.drop 11) then
    some 11
  else none

/-- `\b\d{4}[-\s]?\d{4}[-\s]?\d{4}[-\s]?\d{4}\b` (credit-card pattern). -/
def ccMatch (w : Bool) (l : List Char) : Option Nat :=
  if !bdryB w l then none
  else if !digitsN 4 l then none
  else
    let i1 := 4 + optSep ccSep (l.drop 4)
    if !digitsN 4 (l.drop i1) then none
    else
      let i2 := i1 + 4 + optSep ccSep (l.drop (i1 + 4))
      if !digitsN 4 (l.drop i2) then none
      else
        let i3 := i2 + 4 + optSep ccSep (l.drop (i2 + 4))
        if !digitsN 4 (l.drop i3) then none
        else if headW (l.drop (i3 + 4)) then none
        else some (i3 + 4)

/-- `\b\(?\d{3}\)?[-.\s]?\d{3}[-.\s]?\d{4}\b` (phone pattern). -/
def phMatch (w : Bool) (l : List Char) : Option Nat :=
  if !bdryB w l then none
  else
    let i0 := optSep (fun c => c == '(') l
    if !digitsN 3 (l.drop i0) then none
    else
      let i1 := i0 + 3 + optSep (fun c => c == ')') (l.drop (i0 + 3))
      let i2 := i1 + optSep phSep (l.drop i1)
      if !digitsN 3 (l.drop i2) then none
      else
        let i3 := i2 + 3 + optSep phSep (l.drop (i2 + 3))
        if !digitsN 4 (l.drop i3) then none
        else if headW (l.drop (i3 + 4)) then none
        else some (i3 + 4)

/-- Backtracking over the tld length for the email pattern: try lengths
`t0, t0-1, …, 2` (greedy `{2,}`), accepting the first with a trailing `\b`.
`l2` is the suffix where the tld starts. -/
def emTryT (l2 : List Char) : Nat → Option Nat
  | 0 => none
  | 1 => none
  | t + 2 =>
    if wordAtIdx l2 (t + 1) != headW (l2.drop (t + 2)) then some (t + 2)
    else emTryT l2 (t + 1)

/-- Backtracking over the domain length for the email pattern: try dot
positions `d0, d0-1, …, 1` (greedy `+`), requiring a literal `'.'` there and a
successful tld match after it.  `l1` is the suffix after the `'@'`; the result
counts the domain, the dot and the tld. -/
def emTryD (l1 : List Char) : Nat → Option Nat
  | 0 => none
  | d + 1 =>
    match (if l1.get? (d + 1) == some '.' then
             emTryT (l1.drop (d + 2)) (run tldCls (l1.drop (d + 2)))
           else none) with
    | some t => some ((d + 1) + 1 + t)
    | none => emTryD l1 d

/-- `\b[A-Za-z0-9._%+-]+@[A-Za-z0-9.-]+\.[A-Z|a-z]{2,}\b` (email pattern).
The local part cannot backtrack (`'@'` is outside its class), so it is the
maximal run; the domain and tld are greedy with backtracking. -/
def emMatch (w : Bool) (l : List Char) : Option Nat :=
  if !bdryB w l then none
  else
    let ll := run localCls l
    if ll == 0 then none
    else if !(l.get? ll == some '@') then none
    else
      match emTryD (l.drop (ll + 1)) (run domCls (l.drop (ll + 1))) with
      | some r => some (ll + 1 + r)
      | none => none

/-! ## `re.sub`: left-to-right scan with non-overlapping replacement -/

/-- One left-to-right `re.sub` pass: at each position try the matcher; on a
match emit the tag and resume after the match, else copy one character.  The
wordness argument tracks the character of the *original* string preceding the
current position, exactly as Python computes `\b`.  `fuel` bounds the
recursion; every match consumes at least one character, so `l.length` fuel
suffices. -/
def scanAux (m : Bool → List Char → Option Nat) (tag : List Char) :
    Nat → Bool → List Char → List Char
  | 0, _, _ => []
  | _ + 1, _, [] => []
  | f + 1, w, c :: rest =>
    match m w (c :: rest) with
    | some n => tag ++ scanAux m tag f (wordAtIdx (c :: rest) (n - 1)) (List.drop n (c :: rest))
    | none => c :: scanAux m tag f (isWordChar c) rest

/-- `re.sub(pattern, tag, l)` for one of the four patterns. -/
def subst (m : Bool → List Char → Option Nat) (tag : List Char) (l : List Char) : List Char :=
  scanAux m tag l.length false l

def tagEM : List Char := ['<', 'P', 'I', 'I', '_', 'E', 'M', 'A', 'I', 'L', '>']

def tagPH : List Char := ['<', 'P', 'I', 'I', '_', 'P', 'H', 'O', 'N', 'E', '>']

def tagCC : List Char :=
  ['<', 'P', 'I', 'I', '_', 'C', 'R', 'E', 'D', 'I', 'T', '_', 'C', 'A', 'R', 'D', '>']

def tagSSN : List Char := ['<', 'P', 'I', 'I', '_', 'S', 'S', 'N', '>']

/-- The deterministic fallback redaction of `processor.py` lines 129–138:
the four substitutions applied in source order (email, phone, credit card,
SSN). -/
def redactL (l : List Char) : List Char :=
  subst ssnMatch tagSSN (subst ccMatch tagCC (subst phMatch tagPH (subst emMatch tagEM l)))

/-- String-level wrapper of the fallback redaction. -/
def redactText (s : String) : String := (redactL s.toList).asString

/-! ## Declarative view of the matchers (for the idempotence theorem)

`ScanRel` is the relational description of one `re.sub` pass; the `…Wit`
predicates are declarative decompositions of a match span, used to transport
matches between the text a pass scanned and the text it produced. -/

/-- Wordness of the left context after emitting the characters of `a`
(`w` when `a` is empty). -/
def wAfter (w : Bool) (a : List Char) : Bool :=
  match a.getLast? with
  | some c => isWordChar c
  | none => w

/-- `m` matches nowhere in `t`, where `w` is the wordness of the character
preceding `t`. -/
def NoM (m : Bool → List Char → Option Nat) (w : Bool) (t : List Char) : Prop :=
  ∀ a b, t = a ++ b → m (wAfter w a) b = none

/-- Relation between the output-side left-context wordness `wX` and the
input-side one `wS` along a substitution scan: they agree, except just after
an emitted tag, where the output side reads `'>'` (non-word) while the input
side reads the last matched character (word); the trailing boundary of that
match then forces the next input character to be non-word. -/
def WordRel (wX wS : Bool) (l : List Char) : Prop :=
  wX = wS ∨ (wX = false ∧ wS = true ∧ headW l = false)

/-- One `re.sub` pass, relationally: `ScanRel m tag w l out` holds when
scanning `l` (with preceding-character wordness `w`) produces `out`. -/
inductive ScanRel (m : Bool → List Char → Option Nat) (tag : List Char) :
    Bool → List Char → List Char → Prop
  | nil (w : Bool) : ScanRel m tag w [] []
  | skip (w : Bool) (c : Char) (rest out : List Char) :
      m w (c :: rest) = none → ScanRel m tag (isWordChar c) rest out →
      ScanRel m tag w (c :: rest) (c :: out)
  | matched (w : Bool) (l out : List Char) (n : Nat) :
      m w l = some n → 1 ≤ n → n ≤ l.length →
      ScanRel m tag (wordAtIdx l (n - 1)) (l.drop n) out →
      ScanRel m tag w l (tag ++ out)

/-- Declarative witness for the SSN pattern: the span is
`ddd-dd-dddd` with a word boundary on each side. -/
def SsnWit (w : Bool) (span : List Char) (nw : Bool) : Prop :=
  ∃ a b c3, span = a ++ '-' :: (b ++ '-' :: c3) ∧
    a.length = 3 ∧ b.length = 2 ∧ c3.length = 4 ∧
    (∀ x ∈ a, isDigit x = true) ∧ (∀ x ∈ b, isDigit x = true) ∧
    (∀ x ∈ c3, isDigit x = true) ∧ w = false ∧ nw = false

/-- Declarative witness for the credit-card pattern: four 4-digit groups with
optional single separators, word boundaries on both sides. -/
def CcWit (w : Bool) (span : List Char) (nw : Bool) : Prop :=
  ∃ g1 s1 g2 s2 g3 s3 g4,
    span = g1 ++ (s1 ++ (g2 ++ (s2 ++ (g3 ++ (s3 ++ g4))))) ∧
    g1.length = 4 ∧ g2.length = 4 ∧ g3.length = 4 ∧ g4.length = 4 ∧
    (∀ x ∈ g1, isDigit x = true) ∧ (∀ x ∈ g2, isDigit x = true) ∧
    (∀ x ∈ g3, isDigit x = true) ∧ (∀ x ∈ g4, isDigit x = true) ∧
    (s1 = [] ∨ ∃ c, s1 = [c] ∧ ccSep c = true) ∧
    (s2 = [] ∨ ∃ c, s2 = [c] ∧ ccSep c = true) ∧
    (s3 = [] ∨ ∃ c, s3 = [c] ∧ ccSep c = true) ∧
    w = false ∧ nw = false

/-- Declarative witness for the phone pattern. -/
def PhWit (w : Bool) (span : List Char) (nw : Bool) : Prop :=
  ∃ pa g1 rp s1 g2 s2 g3,
    span = pa ++ (g1 ++ (rp ++ (s1 ++ (g2 ++ (s2 ++ g3))))) ∧
    (pa = [] ∨ pa = ['(']) ∧ (rp = [] ∨ rp = [')']) ∧
    (s1 = [] ∨ ∃ c, s1 = [c] ∧ phSep c = true) ∧
    (s2 = [] ∨ ∃ c, s2 = [c] ∧ phSep c = true) ∧
    g1.length = 3 ∧ g2.length = 3 ∧ g3.length = 4 ∧
    (∀ x ∈ g1, isDigit x = true) ∧ (∀ x ∈ g2, isDigit x = true) ∧
    (∀ x ∈ g3, isDigit x = true) ∧
    headW span = !w ∧ nw = false

/-- Declarative witness for the email pattern: `local @ domain . tld` with the
class constraints of the source regex and a word boundary on each side. -/
def EmWit (w : Bool) (span : List Char) (nw : Bool) : Prop :=
  ∃ lo dom tld, span = lo ++ '@' :: (dom ++ '.' :: tld) ∧
    lo ≠ [] ∧ (∀ c ∈ lo, localCls c = true) ∧
    dom ≠ [] ∧ (∀ c ∈ dom, domCls c = true) ∧
    2 ≤ tld.length ∧ (∀ c ∈ tld, tldCls c = true) ∧
    headW span = !w ∧ lastW span = !nw

/-! ## Job submitter (`src/batch/src/processor.py`, `handler`)

DynamoDB items are records with the attributes the two `put_item` calls write;
attributes a call omits are `none`.  External calls are fields of `ProcEnv`;
an exception is an `Except.error` carrying the message text.  The handler also
returns a trace of the externally visible effects it performed (batch jobs
created, S3 writes, items persisted). -/

/-- A DynamoDB job record, with exactly the attributes written by the code. -/
structure JobItem where
  jobId : String
  jobArn : Option String := none
  status : String
  sourceFile : String
  inputBucket : String
  outputBucket : String
  outputKey : String
  createdAt : String
  completedAt : Option String := none
  method : Option String := none
  ttl : Nat
  failureReason : Option String := none
deriving Repr, DecidableEq

/-- External collaborators of the submitter.  `createJob` models
`bedrock.create_model_invocation_job` (called once per invocation with the
fixed config); `putItem` models `table.put_item`. -/
structure ProcEnv where
  inputBucket : String
  outputBucket : String
  createJob : Except String String
  s3Get : String → String → Except String String
  s3Put : String → String → String → Except String Unit
  putItem : JobItem → Except String Unit
  nowIso : String
  nowTs : Nat

structure S3Rec where
  bucket : String
  key : String
deriving Repr, DecidableEq

/-- The Lambda event: an S3 notification (`Records`) or a manual invocation
with optional `bucket` / `key` fields. -/
structure ProcEvent where
  records : List S3Rec := []
  manualBucket : Option String := none
  manualKey : Option String := none
deriving Repr, DecidableEq

/-- Lines 33–41: take bucket/key from the first S3 record, else from the
manual fields with the documented defaults. -/
def parseSource (env : ProcEnv) (event : ProcEvent) : String × String :=
  match event.records with
  | r :: _ => (r.bucket, r.key)
  | [] => (event.manualBucket.getD env.inputBucket, event.manualKey.getD "sample_pii_data.csv")

/-- Line 46: `f"pii-job-{int(datetime.now().timestamp())}"`. -/
def procJobId (env : ProcEnv) : String := "pii-job-" ++ toString env.nowTs

/-- The JSON-ish response the handler returns. -/
structure ProcResult where
  statusCode : Nat
  jobId : Option String := none
  jobArn : Option String := none
  method : Option String := none
  outputFile : Option String := none
  message : Option String := none
  error : Option String := none
deriving Repr, DecidableEq

/-- Externally visible effects of one submitter invocation. -/
structure ProcTrace where
  jobsCreated : List String := []
  s3Writes : List (String × String × String) := []
  itemsPut : List JobItem := []
deriving Repr, DecidableEq

/-- The item written by lines 90–102 (success path).  Note the code writes no
`method` attribute here. -/
def mkAsyncItem (env : ProcEnv) (bucket key jobId outputKey jobArn : String) : JobItem :=
  { jobId := jobId, jobArn := some jobArn, status := "InProgress", sourceFile := key,
    inputBucket := bucket, outputBucket := env.outputBucket, outputKey := outputKey,
    createdAt := env.nowIso, ttl := env.nowTs + 30 * 24 * 60 * 60 }

/-- The item written by lines 149–162 (fallback path). -/
def mkDirectItem (env : ProcEnv) (bucket key jobId outputKey : String) : JobItem :=
  { jobId := jobId, status := "Completed", sourceFile := key,
    inputBucket := bucket, outputBucket := env.outputBucket, outputKey := outputKey,
    createdAt := env.nowIso, completedAt := some env.nowIso,
    method := some "direct_processing", ttl := env.nowTs + 30 * 24 * 60 * 60 }

/-- Lines 115–177: the direct-processing fallback (inner `try`).  Any failure
among the S3 read, the S3 write and the DynamoDB write is caught by the inner
`except` and produces the 500 response whose message carries only the
fallback error. -/
def directFallback (env : ProcEnv) (bucket key jobId outputKey : String) :
    ProcResult × ProcTrace :=
  match env.s3Get bucket key with
  | .error e =>
    ({ statusCode := 500, error := some ("Both Bedrock and direct processing failed: " ++ e) },
     {})
  | .ok csvContent =>
    let processed := redactText csvContent
    match env.s3Put env.outputBucket outputKey processed with
    | .error e =>
      ({ statusCode := 500, error := some ("Both Bedrock and direct processing failed: " ++ e) },
       {})
    | .ok _ =>
      let item := mkDirectItem env bucket key jobId outputKey
      match env.putItem item with
      | .error e =>
        ({ statusCode := 500,
           error := some ("Both Bedrock and direct processing failed: " ++ e) },
         { s3Writes := [(env.outputBucket, outputKey, processed)] })
      | .ok _ =>
        ({ statusCode := 200, jobId := some jobId, method := some "direct_processing",
           outputFile := some ("s3://" ++ env.outputBucket ++ "/" ++ outputKey),
           message := some ("Successfully processed " ++ key ++ " directly") },
         { s3Writes := [(env.outputBucket, outputKey, processed)], itemsPut := [item] })

/-- `processor.py` `handler`.  The outer `try` at line 68 covers both the
batch-job creation and the success-path `put_item`; an exception from either
is caught at line 111 and triggers the fallback. -/
def procHandler (env : ProcEnv) (event : ProcEvent) : ProcResult × ProcTrace :=
  let src := parseSource env event
  let bucket := src.1
  let key := src.2
  let jobId := procJobId env
  let outputKey := "processed-" ++ key
  match env.createJob with
  | .ok jobArn =>
    let item := mkAsyncItem env bucket key jobId outputKey jobArn
    match env.putItem item with
    | .ok _ =>
      ({ statusCode := 200, jobId := some jobId, jobArn := some jobArn,
         message := some ("Successfully created batch job for " ++ key) },
       { jobsCreated := [jobArn], itemsPut := [item] })
    | .error _ =>
      let fb := directFallback env bucket key jobId outputKey
      (fb.1, { fb.2 with jobsCreated := [jobArn] })
  | .error _ => directFallback env bucket key jobId outputKey

/-! ## Job reconciler (`src/batch/src/monitor.py`, `handler`)

The DynamoDB table is a list of `JobItem`s (keys unique in an actual table);
`getJob` models `bedrock.get_model_invocation_job`, keyed by the job ARN. -/

/-- The backend's answer to `get_model_invocation_job`. -/
structure BedrockJob where
  status : String
  failureMessage : Option String := none
deriving Repr, DecidableEq

structure MonEnv where
  getJob : String → Except String BedrockJob
  nowIso : String

structure MonResult where
  statusCode : Nat
  jobsChecked : Nat := 0
  jobsUpdated : Nat := 0
  message : Option String := none
deriving Repr, DecidableEq

/-- Lines 58–74: the `update_item` applied to a record — set `status` and
`completedAt`, and additionally `failureReason` when the backend status is
`Failed` (a DynamoDB `SET` leaves the other attributes unchanged). -/
def applyJobUpdate (item : JobItem) (jobStatus nowIso : String)
    (failureReason : Option String) : JobItem :=
  { item with
    status := jobStatus, completedAt := some nowIso,
    failureReason := (match failureReason with
      | some r => some r
      | none => item.failureReason) }

/-- `update_item` keyed by `jobId` over the table. -/
def updateTable (table : List JobItem) (jid jobStatus nowIso : String)
    (failureReason : Option String) : List JobItem :=
  table.map fun it =>
    if it.jobId = jid then applyJobUpdate it jobStatus nowIso failureReason else it

/-- Line 42: `if not job_arn or item.get('method') == 'direct_processing'`.
A missing ARN and an empty-string ARN are both falsy in Python. -/
def skipItem (item : JobItem) : Bool :=
  match item.jobArn with
  | none => true
  | some arn => arn == "" || item.method == some "direct_processing"

def terminalStr (s : String) : Bool :=
  s == "Completed" || s == "Failed" || s == "Stopped"

/-- Lines 38–81: the body of the per-item loop, threading
`(table, jobsChecked, jobsUpdated)`.  A backend error for one item is caught
(`except` at line 79) after `jobs_checked` was already incremented. -/
def monStep (env : MonEnv) (st : List JobItem × Nat × Nat) (item : JobItem) :
    List JobItem × Nat × Nat :=
  if skipItem item then st
  else
    match item.jobArn with
    | none => st
    | some arn =>
      match env.getJob arn with
      | .error _ => (st.1, st.2.1 + 1, st.2.2)
      | .ok job =>
        if terminalStr job.status then
          let fr := if job.status == "Failed"
            then some (job.failureMessage.getD "Unknown failure") else none
          (updateTable st.1 item.jobId job.status env.nowIso fr, st.2.1 + 1, st.2.2 + 1)
        else (st.1, st.2.1 + 1, st.2.2)

/-- `monitor.py` `handler`: scan the table for `status = 'InProgress'`
(lines 29–33), loop with `monStep`, and return the aggregate counts with a
200 response (lines 83–88). -/
def monHandler (env : MonEnv) (table : List JobItem) : MonResult × List JobItem :=
  let items := table.filter fun it => it.status == "InProgress"
  let res := items.foldl (monStep env) (table, 0, 0)
  ({ statusCode := 200, jobsChecked := res.2.1, jobsUpdated := res.2.2,
     message := some ("Checked " ++ toString res.2.1 ++ " jobs, updated "
       ++ toString res.2.2) }, res.1)

/-- The `(status, failureReason)` update a scanned item triggers, if any:
`none` when the item is skipped, the backend query fails, or the backend
status is non-terminal. -/
def itemUpdate (env : MonEnv) (item : JobItem) : Option (String × Option String) :=
  if skipItem item then none
  else
    match item.jobArn with
    | none => none
    | some arn =>
      match env.getJob arn with
      | .error _ => none
      | .ok job =>
        if terminalStr job.status then
          some (job.status,
            if job.status == "Failed" then some (job.failureMessage.getD "Unknown failure")
            else none)
        else none

/-- Number of scanned items counted in `jobsChecked` (all non-skipped items,
whatever the backend answers). -/
def countChecked (items : List JobItem) : Nat :=
  (items.filter fun i => !skipItem i).length

/-- Number of scanned items counted in `jobsUpdated`. -/
def countUpdated (env : MonEnv) (items : List JobItem) : Nat :=
  (items.filter fun i => (itemUpdate env i).isSome).length

/-- The per-record effect of a full reconciliation pass over `items`. -/
def updFor (env : MonEnv) (items : List JobItem) (r : JobItem) : JobItem :=
  match items.find? fun i => i.jobId == r.jobId with
  | some i =>
    match itemUpdate env i with
    | some su => applyJobUpdate r su.1 env.nowIso su.2
    | none => r
  | none => r

/-! ## Realtime lambda (`src/Realtime/samplelambda/genai-pii-mask.py`) -/

/-- `response['output']['message']['content']`: the list of content blocks,
each carrying a text. -/
structure BedrockMessage where
  content : List String
deriving Repr, DecidableEq

structure BedrockOutput where
  message : BedrockMessage
deriving Repr, DecidableEq

structure ConverseResp where
  output : BedrockOutput
deriving Repr, DecidableEq

/-- `obfuscate_pii` (lines 14–61): call `bedrock.converse` with the fixed
masking prompt plus the text (the prompt prefix is a constant and is elided
from the model); on any error — transport or extraction of
`content[0]['text']` — the `except` returns the original text. -/
def obfuscatePii (converse : String → Except String ConverseResp) (text : String) : String :=
  match converse text with
  | .error _ => text
  | .ok resp =>
    match resp.output.message.content.head? with
    | some t => t
    | none => text

/-- One CSV row: the `Comments` cell (`none` models a missing value, i.e.
`pd.notna` false) plus the other, untouched columns. -/
structure CsvRow where
  comments : Option String := none
  others : List String := []
deriving Repr, DecidableEq

/-- External collaborators of the realtime lambda.  `readCsv` bundles
`s3.get_object` plus `pd.read_csv`; `toCsv` models `df.to_csv` (pandas is an
external collaborator, its serialisation is opaque here). -/
structure RtEnv where
  s3Get : String → String → Except String String
  readCsv : String → String → Except String (List CsvRow)
  s3Put : String → String → String → Except String Unit
  toCsv : List CsvRow → String
  converse : String → Except String ConverseResp

structure RtResult where
  statusCode : Nat
  body : String
deriving Repr, DecidableEq

/-- Externally visible effects of one realtime invocation:
S3 writes performed and the number of cells passed to `obfuscate_pii`. -/
structure RtTrace where
  s3Writes : List (String × String × String) := []
  cellsObfuscated : Nat := 0
deriving Repr, DecidableEq

/-- Line 82: `[ptype.strip('* ') for ptype in pii_types if ptype.strip()]`. -/
def parsePiiTypes (cfg : String) : List String :=
  ((cfg.splitOn "\n").filter fun line => line.trim ≠ "").map fun line =>
    (line.toList.dropWhile (fun c => c == '*' || c == ' ')).reverse.dropWhile
      (fun c => c == '*' || c == ' ') |>.reverse.asString

/-- Lines 103–107: obfuscate the `Comments` cell of every row where it is
present. -/
def processRows (converse : String → Except String ConverseResp) (rows : List CsvRow) :
    List CsvRow :=
  rows.map fun r =>
    match r.comments with
    | some c => { r with comments := some (obfuscatePii converse c) }
    | none => r

/-- Number of cells `lambda_handler` passes to `obfuscate_pii`. -/
def countCells (rows : List CsvRow) : Nat :=
  (rows.filter fun r => r.comments.isSome).length

/-- `source_key.endswith('.csv')`. -/
def endsWithCsv (key : String) : Bool :=
  ".csv".toList.isSuffixOf key.toList

/-- `lambda_handler` (lines 63–136).  An event without records raises
`KeyError` into the outer `except` (500); a non-`.csv` key is rejected with
400 before any S3 read, model call or write. -/
def rtHandler (env : RtEnv) (event : List S3Rec) : RtResult × RtTrace :=
  match event with
  | [] => ({ statusCode := 500, body := "Unexpected error: no records" }, {})
  | rec :: _ =>
    let sourceBucket := rec.bucket
    let sourceKey := rec.key
    if !endsWithCsv sourceKey then
      ({ statusCode := 400, body := "Invalid file format" }, {})
    else
      match env.s3Get sourceBucket "config/pii_types.txt" with
      | .error e =>
        ({ statusCode := 500, body := "Error reading PII configuration: " ++ e }, {})
      | .ok cfg =>
        let piiTypes := parsePiiTypes cfg
        match env.readCsv sourceBucket sourceKey with
        | .error e =>
          ({ statusCode := 500, body := "Error reading source CSV: " ++ e }, {})
        | .ok rows =>
          let newRows := processRows env.converse rows
          let targetKey := sourceKey.replace "Newfile/" "Newoutputfile/"
          let bodyOut := env.toCsv newRows
          match env.s3Put sourceBucket targetKey bodyOut with
          | .error e =>
            ({ statusCode := 500, body := "Error saving processed file: " ++ e },
             { cellsObfuscated := countCells rows })
          | .ok _ =>
            ({ statusCode := 200,
               body := "Processing complete: " ++ sourceKey ++ " -> " ++ targetKey
                 ++ " (" ++ toString piiTypes.length ++ " pii types, "
                 ++ toString rows.length ++ " rows)" },
             { s3Writes := [(sourceBucket, targetKey, bodyOut)],
               cellsObfuscated := countCells rows })

/-! ## Concrete environments used in the closed theorems below -/

/-- Backend creates the batch job and every store write succeeds. -/
def envOkPut : ProcEnv :=
  { inputBucket := "in", outputBucket := "out",
    createJob := .ok "arn:job:1",
    s3Get := fun _ _ => .ok "call 555-123-4567",
    s3Put := fun _ _ _ => .ok (),
    putItem := fun _ => .ok (),
    nowIso := "t0", nowTs := 100 }

/-- Backend creates the batch job, but the success-path record write fails
(the fallback-path record write succeeds). -/
def envAsyncPersistFails : ProcEnv :=
  { inputBucket := "in", outputBucket := "out",
    createJob := .ok "arn:job:1",
    s3Get := fun _ _ => .ok "call 555-123-4567",
    s3Put := fun _ _ _ => .ok (),
    putItem := fun item =>
      if item.method == some "direct_processing" then .ok ()
      else .error "dynamodb unavailable",
    nowIso := "t0", nowTs := 100 }

/-- Batch-job creation fails and so does the fallback's S3 read. -/
def envBothFail : ProcEnv :=
  { inputBucket := "in", outputBucket := "out",
    createJob := .error "bedrock unavailable Z9",
    s3Get := fun _ _ => .error "s3 read denied",
    s3Put := fun _ _ _ => .ok (),
    putItem := fun _ => .ok (),
    nowIso := "t0", nowTs := 100 }

/-- Batch-job creation fails; the fallback succeeds end to end. -/
def envBedrockDown : ProcEnv :=
  { inputBucket := "in", outputBucket := "out",
    createJob := .error "bedrock unavailable",
    s3Get := fun _ _ => .ok "call 555-123-4567",
    s3Put := fun _ _ _ => .ok (),
    putItem := fun _ => .ok (),
    nowIso := "t0", nowTs := 100 }

def evCsv : ProcEvent := { records := [⟨"in", "data.csv"⟩] }

def evTxt : ProcEvent := { records := [⟨"in", "data.txt"⟩] }

/-- A realtime backend whose `converse` always fails. -/
def convFail : String → Except String ConverseResp := fun _ => .error "backend down"

/-- A benign realtime environment. -/
def envRt : RtEnv :=
  { s3Get := fun _ _ => .ok "name\nemail",
    readCsv := fun _ _ => .ok [{ comments := some "call 555-123-4567" }],
    s3Put := fun _ _ _ => .ok (),
    toCsv := fun rows => toString rows.length,
    converse := convFail }

/-- Monitor backend reporting `arn:1` as `Failed` with a failure message. -/
def monEnvC : MonEnv :=
  { getJob := fun arn =>
      if arn = "arn:1" then .ok { status := "Failed", failureMessage := some "quota exceeded" }
      else .error "ResourceNotFound",
    nowIso := "t1" }

def recInProg : JobItem :=
  { jobId := "j1", jobArn := some "arn:1", status := "InProgress", sourceFile := "f.csv",
    inputBucket := "in", outputBucket := "out", outputKey := "o1", createdAt := "t0", ttl := 0 }

def recDone : JobItem :=
  { jobId := "j2", status := "Completed", sourceFile := "g.csv", inputBucket := "in",
    outputBucket := "out", outputKey := "o2", createdAt := "t0",
    completedAt := some "t0", method := some "direct_processing", ttl := 0 }

/-! ## Theorems: submitter (C1, C2, C3) -/

/-- C1 counterexample.  When `create_model_invocation_job` succeeds but the
success-path `put_item` raises, the `except` at line 111 catches it and runs
the full fallback: in this single execution a batch job was successfully
created *and* the deterministic fallback (read, regex-redact, write output,
persist a `direct_processing` record) executed for the same `jobId`.  This
refutes the claimed mutual exclusion as stated. -/
theorem c1_counterexample :
    (procHandler envAsyncPersistFails evCsv).2.jobsCreated = ["arn:job:1"] ∧
    (procHandler envAsyncPersistFails evCsv).1.method = some "direct_processing" ∧
    (procHandler envAsyncPersistFails evCsv).1.jobId = some "pii-job-100" ∧
    (procHandler envAsyncPersistFails evCsv).2.s3Writes ≠ [] ∧
    ((procHandler envAsyncPersistFails evCsv).2.itemsPut.map JobItem.method)
      = [some "direct_processing"] := by decide

/-- C1 (amended): if the batch-job creation *and* the success-path record
persist both succeed, the fallback is not executed: no S3 write, no
`direct_processing` record, and the response reports the async path. -/
theorem c1_amended_exclusive (env : ProcEnv) (ev : ProcEvent) (arn : String)
    (hc : env.createJob = .ok arn)
    (hp : env.putItem (mkAsyncItem env (parseSource env ev).1 (parseSource env ev).2
            (procJobId env) ("processed-" ++ (parseSource env ev).2) arn) = .ok ()) :
    (procHandler env ev).2.s3Writes = [] ∧
    (∀ it ∈ (procHandler env ev).2.itemsPut, it.method ≠ some "direct_processing") ∧
    (procHandler env ev).1.statusCode = 200 ∧
    (procHandler env ev).1.method = none ∧
    (procHandler env ev).2.jobsCreated = [arn] := by
  simp only [procHandler, hc]
  rw [hp]
  simp [mkAsyncItem]

theorem c1_amended_witness :
    (procHandler envOkPut evCsv).2.s3Writes = [] ∧
    (∀ it ∈ (procHandler envOkPut evCsv).2.itemsPut, it.method ≠ some "direct_processing") ∧
    (procHandler envOkPut evCsv).1.statusCode = 200 ∧
    (procHandler envOkPut evCsv).1.method = none ∧
    (procHandler envOkPut evCsv).2.jobsCreated = ["arn:job:1"] :=
  c1_amended_exclusive envOkPut evCsv "arn:job:1" rfl rfl

/-- C2 counterexample.  On the successful async path the code persists an
item with *no* `method` attribute at all (lines 90–102 write none), so the
persisted record does not have `method = async_model` as claimed. -/
theorem c2_counterexample :
    (procHandler envOkPut evCsv).1.jobArn = some "arn:job:1" ∧
    ((procHandler envOkPut evCsv).2.itemsPut.map JobItem.method) = [none] ∧
    ((procHandler envOkPut evCsv).2.itemsPut.map JobItem.method) ≠ [some "async_model"] := by
  decide

/-- C2 (amended): when `createJob` succeeds with `jobArn` and the record
persist succeeds, the persisted record has `status = InProgress`, the returned
`jobArn`, no `completedAt` — and *no* `method` attribute (only
`direct_processing` records carry `method`). -/
theorem c2_amended_record (env : ProcEnv) (ev : ProcEvent) (arn : String)
    (hc : env.createJob = .ok arn)
    (hp : env.putItem (mkAsyncItem env (parseSource env ev).1 (parseSource env ev).2
            (procJobId env) ("processed-" ++ (parseSource env ev).2) arn) = .ok ()) :
    ∃ it, (procHandler env ev).2.itemsPut = [it] ∧
      it.status = "InProgress" ∧ it.jobArn = some arn ∧
      it.completedAt = none ∧ it.method = none ∧
      it.createdAt = env.nowIso := by
  simp only [procHandler, hc, hp]
  exact ⟨_, rfl, rfl, rfl, rfl, rfl, rfl⟩

theorem c2_amended_witness :
    ∃ it, (procHandler envOkPut evCsv).2.itemsPut = [it] ∧
      it.status = "InProgress" ∧ it.jobArn = some "arn:job:1" ∧
      it.completedAt = none ∧ it.method = none ∧
      it.createdAt = envOkPut.nowIso :=
  c2_amended_record envOkPut evCsv "arn:job:1" rfl rfl

/-- C3 counterexample.  When both paths fail, the 500 message is
`f'Both Bedrock and direct processing failed: {str(direct_error)}'`
(line 176): it carries only the fallback error; the original async error
(`"bedrock unavailable Z9"` here) does not occur in the response. -/
theorem c3_counterexample :
    (procHandler envBothFail evCsv).1.statusCode = 500 ∧
    (procHandler envBothFail evCsv).1.error
      = some "Both Bedrock and direct processing failed: s3 read denied" ∧
    ¬ ("Z9".toList <:+: ((procHandler envBothFail evCsv).1.error.getD "").toList) ∧
    (procHandler envBothFail evCsv).2.itemsPut = [] := by decide

/-- C3 (amended): on a dual-path failure the submitter returns 500 with no
persisted record, and the message carries the fallback error only (prefixed by
the fixed dual-failure text); the async-submission error is not included. -/
theorem c3_amended_dual_failure (env : ProcEnv) (ev : ProcEvent) (e1 : String)
    (hc : env.createJob = .error e1)
    (h500 : (procHandler env ev).1.statusCode = 500) :
    (procHandler env ev).2.itemsPut = [] ∧
    ∃ e2, (procHandler env ev).1.error
      = some ("Both Bedrock and direct processing failed: " ++ e2) := by
  simp only [procHandler, hc] at h500 ⊢
  unfold directFallback at h500 ⊢
  cases hg : env.s3Get (parseSource env ev).1 (parseSource env ev).2 with
  | error e => exact ⟨rfl, e, rfl⟩
  | ok content =>
    simp only [hg] at h500 ⊢
    cases hput : env.s3Put env.outputBucket ("processed-" ++ (parseSource env ev).2)
        (redactText content) with
    | error e => exact ⟨rfl, e, rfl⟩
    | ok _ =>
      simp only [hput] at h500 ⊢
      cases hpi : env.putItem (mkDirectItem env (parseSource env ev).1
          (parseSource env ev).2 (procJobId env)
          ("processed-" ++ (parseSource env ev).2)) with
      | error e => exact ⟨rfl, e, rfl⟩
      | ok _ =>
        simp only [hpi] at h500
        exact absurd h500 (by decide)

theorem c3_amended_witness :
    (procHandler envBothFail evCsv).2.itemsPut = [] ∧
    ∃ e2, (procHandler envBothFail evCsv).1.error
      = some ("Both Bedrock and direct processing failed: " ++ e2) :=
  c3_amended_dual_failure envBothFail evCsv "bedrock unavailable Z9" rfl rfl

/-! ## Theorems: realtime lambda (C5, C10) -/

/-- C5: `obfuscate_pii` is total (it is a function returning a `String`) and
fail-open: whenever the `converse` call fails, or the response carries no
content block to extract `content[0]['text']` from, it returns the original
text unchanged. -/
theorem c5_obfuscate_failopen (conv : String → Except String ConverseResp) (t : String) :
    (∀ e, conv t = .error e → obfuscatePii conv t = t) ∧
    (∀ resp, conv t = .ok resp → resp.output.message.content = [] →
      obfuscatePii conv t = t) := by
  constructor
  · intro e he
    simp [obfuscatePii, he]
  · intro resp hr hc
    simp [obfuscatePii, hr, hc]

theorem c5_witness : obfuscatePii convFail "my ssn is 123-45-6789" = "my ssn is 123-45-6789" :=
  (c5_obfuscate_failopen convFail "my ssn is 123-45-6789").1 "backend down" rfl

/-- C10 counterexample.  The batch submitter (`processor.py`) also receives
file-arrival triggers but performs no extension validation: a `.txt` key is
accepted (200, not 400) and, on the fallback path, redaction runs and the
output location is written. -/
theorem c10_counterexample :
    (procHandler envBedrockDown evTxt).1.statusCode = 200 ∧
    (procHandler envBedrockDown evTxt).1.statusCode ≠ 400 ∧
    (procHandler envBedrockDown evTxt).2.s3Writes ≠ [] := by decide

/-- C10 (amended): the *realtime* handler rejects any trigger whose key does
not end in `.csv` with a 400 response, before any model call and any write
(the batch submitter performs no such validation, as the counterexample
shows). -/
theorem c10_amended_realtime_reject (env : RtEnv) (r : S3Rec) (rest : List S3Rec)
    (h : endsWithCsv r.key = false) :
    rtHandler env (r :: rest) = ({ statusCode := 400, body := "Invalid file format" }, {}) := by
  simp [rtHandler, h]

theorem c10_amended_witness :
    rtHandler envRt [⟨"bkt", "Newfile/data.txt"⟩]
      = ({ statusCode := 400, body := "Invalid file format" }, {}) :=
  c10_amended_realtime_reject envRt ⟨"bkt", "Newfile/data.txt"⟩ [] (by decide)

/-! ## Theorems: reconciler characterisation and C6, C7, C8 -/

theorem applyJobUpdate_jobId (item : JobItem) (st now : String) (fr : Option String) :
    (applyJobUpdate item st now fr).jobId = item.jobId := rfl

theorem updFor_jobId (env : MonEnv) (items : List JobItem) (r : JobItem) :
    (updFor env items r).jobId = r.jobId := by
  unfold updFor
  split
  · split
    · rfl
    · rfl
  · rfl

theorem itemUpdate_congr (env env2 : MonEnv) (hsame : env2.getJob = env.getJob)
    (item : JobItem) : itemUpdate env2 item = itemUpdate env item := by
  unfold itemUpdate
  rw [hsame]

theorem itemUpdate_terminal (env : MonEnv) (item : JobItem) (su : String × Option String)
    (h : itemUpdate env item = some su) : terminalStr su.1 = true := by
  unfold itemUpdate at h
  split at h
  · simp at h
  · split at h
    · simp at h
    · split at h
      · simp at h
      · split at h
        · rename_i hterm
          obtain rfl := Option.some.inj h
          exact hterm
        · simp at h

theorem monStep_skip (env : MonEnv) (st : List JobItem × Nat × Nat) (item : JobItem)
    (h : skipItem item = true) : monStep env st item = st := by
  unfold monStep
  rw [if_pos h]

theorem monStep_nonupdate (env : MonEnv) (st : List JobItem × Nat × Nat) (item : JobItem)
    (h : skipItem item = false) (hu : itemUpdate env item = none) :
    monStep env st item = (st.1, st.2.1 + 1, st.2.2) := by
  unfold monStep
  rw [if_neg (by simp [h])]
  cases harn : item.jobArn with
  | none =>
    exfalso
    unfold skipItem at h
    rw [harn] at h
    simp at h
  | some arn =>
    unfold itemUpdate at hu
    rw [if_neg (by simp [h]), harn] at hu
    dsimp only at hu ⊢
    cases hq : env.getJob arn with
    | error e => rfl
    | ok job =>
      rw [hq] at hu
      dsimp only at hu ⊢
      by_cases hterm : terminalStr job.status = true
      · rw [if_pos hterm] at hu
        simp at hu
      · rw [if_neg hterm] at hu
        rw [if_neg hterm]

theorem monStep_update (env : MonEnv) (st : List JobItem × Nat × Nat) (item : JobItem)
    (su : String × Option String)
    (h : skipItem item = false) (hu : itemUpdate env item = some su) :
    monStep env st item
      = (updateTable st.1 item.jobId su.1 env.nowIso su.2, st.2.1 + 1, st.2.2 + 1) := by
  unfold monStep
  rw [if_neg (by simp [h])]
  cases harn : item.jobArn with
  | none =>
    exfalso
    unfold skipItem at h
    rw [harn] at h
    simp at h
  | some arn =>
    unfold itemUpdate at hu
    rw [if_neg (by simp [h]), harn] at hu
    dsimp only at hu ⊢
    cases hq : env.getJob arn with
    | error e =>
      rw [hq] at hu
      simp at hu
    | ok job =>
      rw [hq] at hu
      dsimp only at hu ⊢
      by_cases hterm : terminalStr job.status = true
      · rw [if_pos hterm] at hu
        rw [if_pos hterm]
        obtain rfl := Option.some.inj hu
        rfl
      · rw [if_neg hterm] at hu
        simp at hu

theorem find?_keyed_none (l : List JobItem) (k : String)
    (h : ∀ x ∈ l, x.jobId ≠ k) : (l.find? fun x => x.jobId == k) = none := by
  rw [List.find?_eq_none]
  intro x hx
  simp only [beq_iff_eq]
  exact h x hx

theorem find?_keyed_cons_pos (i : JobItem) (rest : List JobItem) (k : String)
    (h : (i.jobId == k) = true) :
    ((i :: rest).find? fun x => x.jobId == k) = some i := by
  simp [List.find?_cons, h]

theorem find?_keyed_cons_neg (i : JobItem) (rest : List JobItem) (k : String)
    (h : (i.jobId == k) = false) :
    ((i :: rest).find? fun x => x.jobId == k) = rest.find? fun x => x.jobId == k := by
  simp [List.find?_cons, h]

theorem updFor_cons_none (env : MonEnv) (i : JobItem) (rest : List JobItem) (r : JobItem)
    (hu : itemUpdate env i = none) (hk : ∀ x ∈ rest, x.jobId ≠ i.jobId) :
    updFor env (i :: rest) r = updFor env rest r := by
  unfold updFor
  cases heq : (i.jobId == r.jobId) with
  | true =>
    have hkey : r.jobId = i.jobId := ((beq_iff_eq).mp heq).symm
    rw [find?_keyed_cons_pos i rest r.jobId heq, hkey, find?_keyed_none rest i.jobId hk]
    dsimp only
    rw [hu]
  | false => rw [find?_keyed_cons_neg i rest r.jobId heq]

theorem updFor_cons_update (env : MonEnv) (i : JobItem) (rest : List JobItem)
    (su : String × Option String) (r : JobItem)
    (hu : itemUpdate env i = some su) (hk : ∀ x ∈ rest, x.jobId ≠ i.jobId) :
    updFor env rest (if r.jobId = i.jobId then applyJobUpdate r su.1 env.nowIso su.2 else r)
      = updFor env (i :: rest) r := by
  by_cases hkey : r.jobId = i.jobId
  · rw [if_pos hkey]
    unfold updFor
    rw [applyJobUpdate_jobId, hkey, find?_keyed_none rest i.jobId hk,
      find?_keyed_cons_pos i rest i.jobId (by simp)]
    dsimp only
    rw [hu]
  · rw [if_neg hkey]
    unfold updFor
    rw [find?_keyed_cons_neg i rest r.jobId
      (by rw [beq_eq_false_iff_ne]; exact fun h => hkey h.symm)]

theorem countChecked_nil : countChecked [] = 0 := rfl

theorem countChecked_cons (i : JobItem) (rest : List JobItem) :
    countChecked (i :: rest) = (if skipItem i then 0 else 1) + countChecked rest := by
  cases h : skipItem i with
  | true => simp [countChecked, List.filter_cons, h]
  | false => simp [countChecked, List.filter_cons, h, Nat.add_comm]

theorem countUpdated_cons (env : MonEnv) (i : JobItem) (rest : List JobItem) :
    countUpdated env (i :: rest)
      = (if (itemUpdate env i).isSome then 1 else 0) + countUpdated env rest := by
  cases h : (itemUpdate env i).isSome with
  | true => simp [countUpdated, List.filter_cons, h, Nat.add_comm]
  | false => simp [countUpdated, List.filter_cons, h]

theorem map_congr_fun {α β : Type} (l : List α) (f g : α → β)
    (h : ∀ a ∈ l, f a = g a) : l.map f = l.map g := by
  induction l with
  | nil => rfl
  | cons a t ih =>
    simp only [List.map_cons]
    rw [h a (by simp), ih fun a ha => h a (by simp [ha])]

theorem updFor_nil (env : MonEnv) (r : JobItem) : updFor env [] r = r := by
  unfold updFor
  rfl

theorem foldl_monStep_char (env : MonEnv) :
    ∀ (items tab : List JobItem) (c u : Nat),
      (items.map JobItem.jobId).Nodup →
      items.foldl (monStep env) (tab, c, u)
        = (tab.map (updFor env items), c + countChecked items, u + countUpdated env items)
  | [], tab, c, u, _ => by
    simp only [List.foldl_nil, countChecked_nil]
    rw [map_congr_fun tab _ id (fun a _ => updFor_nil env a)]
    simp [countUpdated]
  | i :: rest, tab, c, u, hnd => by
    have hnd' : (rest.map JobItem.jobId).Nodup := (List.nodup_cons.mp hnd).2
    have hk : ∀ x ∈ rest, x.jobId ≠ i.jobId := by
      intro x hx heq
      exact (List.nodup_cons.mp hnd).1 (heq ▸ List.mem_map_of_mem JobItem.jobId hx)
    rw [List.foldl_cons]
    cases hskip : skipItem i with
    | true =>
      have hu : itemUpdate env i = none := by
        unfold itemUpdate
        rw [hskip]
        rfl
      rw [monStep_skip env _ i hskip, foldl_monStep_char env rest tab c u hnd']
      rw [map_congr_fun tab _ _ (fun r _ => (updFor_cons_none env i rest r hu hk).symm)]
      rw [countChecked_cons, countUpdated_cons, hskip, hu]
      simp only [Prod.mk.injEq]
      refine ⟨by trivial, ?_, ?_⟩
      · simp
      · simp
    | false =>
      cases hupd : itemUpdate env i with
      | none =>
        rw [monStep_nonupdate env _ i hskip hupd, foldl_monStep_char env rest tab (c + 1) u hnd']
        rw [map_congr_fun tab _ _ (fun r _ => (updFor_cons_none env i rest r hupd hk).symm)]
        rw [countChecked_cons, countUpdated_cons, hskip, hupd]
        simp only [Prod.mk.injEq]
        refine ⟨by trivial, ?_, ?_⟩
        · simp only [Bool.false_eq_true, if_false, Option.isSome_none]
          omega
        · simp
      | some su =>
        rw [monStep_update env _ i su hskip hupd,
          foldl_monStep_char env rest _ (c + 1) (u + 1) hnd']
        unfold updateTable
        have hmap : ((tab.map fun it =>
            if it.jobId = i.jobId then applyJobUpdate it su.1 env.nowIso su.2 else it).map
              (updFor env rest)) = tab.map (updFor env (i :: rest)) := by
          rw [List.map_map]
          exact map_congr_fun tab _ _ fun r _ => updFor_cons_update env i rest su r hupd hk
        rw [hmap]
        rw [countChecked_cons, countUpdated_cons, hskip, hupd]
        simp only [Prod.mk.injEq]
        refine ⟨by trivial, ?_, ?_⟩
        · simp only [Bool.false_eq_true, if_false]
          omega
        · simp only [Option.isSome_some, if_true]
          omega

/-- The items scanned by the reconciler (the DynamoDB filter expression). -/
theorem monHandler_char (env : MonEnv) (table : List JobItem)
    (hnd : (table.map JobItem.jobId).Nodup) :
    (monHandler env table).2
      = table.map (updFor env (table.filter fun it => it.status == "InProgress")) ∧
    (monHandler env table).1.jobsChecked
      = countChecked (table.filter fun it => it.status == "InProgress") ∧
    (monHandler env table).1.jobsUpdated
      = countUpdated env (table.filter fun it => it.status == "InProgress") ∧
    (monHandler env table).1.statusCode = 200 := by
  have hsub : ((table.filter fun it => it.status == "InProgress").map JobItem.jobId).Nodup := by
    refine List.Nodup.sublist ?_ hnd
    exact List.Sublist.map JobItem.jobId (List.filter_sublist table)
  simp only [monHandler]
  rw [foldl_monStep_char env _ table 0 0 hsub]
  simp

theorem find?_map_keyed (F : JobItem → JobItem) (hF : ∀ x, (F x).jobId = x.jobId)
    (l : List JobItem) (k : String) :
    ((l.map F).find? fun x => x.jobId == k) = (l.find? fun x => x.jobId == k).map F := by
  induction l with
  | nil => rfl
  | cons a t ih =>
    simp only [List.map_cons]
    cases heq : (a.jobId == k) with
    | true =>
      rw [find?_keyed_cons_pos a t k heq,
        find?_keyed_cons_pos (F a) (t.map F) k (by rw [hF]; exact heq)]
      rfl
    | false =>
      rw [find?_keyed_cons_neg a t k heq,
        find?_keyed_cons_neg (F a) (t.map F) k (by rw [hF]; exact heq), ih]

theorem find?_key_self (l : List JobItem) (r : JobItem)
    (hnd : (l.map JobItem.jobId).Nodup) (hr : r ∈ l) :
    (l.find? fun x => x.jobId == r.jobId) = some r := by
  induction l with
  | nil => cases hr
  | cons a t ih =>
    rcases List.mem_cons.mp hr with heq | hmem
    · subst heq
      exact find?_keyed_cons_pos _ _ _ (by simp)
    · have hna : a.jobId ∉ t.map JobItem.jobId := (List.nodup_cons.mp hnd).1
      have hne : (a.jobId == r.jobId) = false := by
        rw [beq_eq_false_iff_ne]
        intro h
        exact hna (h ▸ List.mem_map_of_mem JobItem.jobId hmem)
      rw [find?_keyed_cons_neg a t r.jobId hne]
      exact ih (List.nodup_cons.mp hnd).2 hmem

theorem terminal_not_inprogress (s : String) (h : terminalStr s = true) :
    (s == "InProgress") = false := by
  unfold terminalStr at h
  simp only [Bool.or_eq_true, beq_iff_eq] at h
  rcases h with (h | h) | h <;> subst h <;> decide

/-- C6: a reconciliation pass leaves every terminal record exactly as it was,
and a second pass over an already-reconciled state (same backend answers)
updates nothing: `jobsUpdated = 0` and the table is unchanged. -/
theorem c6_terminal_monotonic (env env2 : MonEnv) (table : List JobItem)
    (hnd : (table.map JobItem.jobId).Nodup)
    (hsame : env2.getJob = env.getJob) :
    (∀ r ∈ table, terminalStr r.status = true →
      ((monHandler env table).2.find? fun x => x.jobId == r.jobId) = some r) ∧
    (monHandler env2 (monHandler env table).2).1.jobsUpdated = 0 ∧
    (monHandler env2 (monHandler env table).2).2 = (monHandler env table).2 := by
  obtain ⟨ht, hc, hu0, hs⟩ := monHandler_char env table hnd
  have hsubnd : (((table.filter fun it => it.status == "InProgress").map
      JobItem.jobId)).Nodup := by
    refine List.Nodup.sublist ?_ hnd
    exact List.Sublist.map JobItem.jobId (List.filter_sublist table)
  have hFid : ∀ x, (updFor env (table.filter fun it => it.status == "InProgress") x).jobId
      = x.jobId :=
    fun x => updFor_jobId env _ x
  have parta : ∀ r ∈ table, terminalStr r.status = true →
      ((monHandler env table).2.find? fun x => x.jobId == r.jobId) = some r := by
    intro r hr hterm
    rw [ht, find?_map_keyed _ hFid table r.jobId, find?_key_self table r hnd hr]
    have hfind : ((table.filter fun it => it.status == "InProgress").find?
        fun x => x.jobId == r.jobId) = none := by
      apply find?_keyed_none
      intro x hx hkey
      have hx' : x ∈ table := List.mem_of_mem_filter hx
      have hxr : x = r := List.inj_on_of_nodup_map hnd hx' hr hkey
      subst hxr
      have hprog : (x.status == "InProgress") = true := (List.mem_filter.mp hx).2
      rw [terminal_not_inprogress x.status hterm] at hprog
      cases hprog
    show some (updFor env _ r) = some r
    unfold updFor
    rw [hfind]
  have hkeys : (monHandler env table).2.map JobItem.jobId = table.map JobItem.jobId := by
    rw [ht, List.map_map]
    exact map_congr_fun table _ _ fun x _ => hFid x
  have hnd1 : ((monHandler env table).2.map JobItem.jobId).Nodup := by
    rw [hkeys]
    exact hnd
  obtain ⟨ht2, hc2, hu2, hs2⟩ := monHandler_char env2 (monHandler env table).2 hnd1
  have hinert : ∀ i ∈ (monHandler env table).2.filter (fun it => it.status == "InProgress"),
      itemUpdate env2 i = none := by
    intro i hi
    have hprog : (i.status == "InProgress") = true := (List.mem_filter.mp hi).2
    have hit1 : i ∈ (monHandler env table).2 := List.mem_of_mem_filter hi
    rw [ht] at hit1
    obtain ⟨r, hr, rfl⟩ := List.mem_map.mp hit1
    rw [itemUpdate_congr env env2 hsame]
    cases hf : (table.filter fun it => it.status == "InProgress").find?
        (fun x => x.jobId == r.jobId) with
    | some i0 =>
      cases hu : itemUpdate env i0 with
      | some su =>
        exfalso
        have hstat : (updFor env (table.filter fun it => it.status == "InProgress") r).status
            = su.1 := by
          unfold updFor
          rw [hf]
          dsimp only
          rw [hu]
          rfl
        have hterm' : terminalStr su.1 = true := itemUpdate_terminal env i0 su hu
        rw [hstat, terminal_not_inprogress su.1 hterm'] at hprog
        cases hprog
      | none =>
        have hrr : updFor env (table.filter fun it => it.status == "InProgress") r = r := by
          unfold updFor
          rw [hf]
          dsimp only
          rw [hu]
        rw [hrr] at hprog ⊢
        have hrit : r ∈ table.filter (fun it => it.status == "InProgress") :=
          List.mem_filter.mpr ⟨hr, hprog⟩
        have hsr := find?_key_self _ r hsubnd hrit
        rw [hf] at hsr
        obtain rfl := Option.some.inj hsr
        exact hu
    | none =>
      have hrr : updFor env (table.filter fun it => it.status == "InProgress") r = r := by
        unfold updFor
        rw [hf]
      rw [hrr] at hprog ⊢
      have hrit : r ∈ table.filter (fun it => it.status == "InProgress") :=
        List.mem_filter.mpr ⟨hr, hprog⟩
      have hsr := find?_key_self _ r hsubnd hrit
      rw [hf] at hsr
      cases hsr
  refine ⟨parta, ?_, ?_⟩
  · rw [hu2]
    unfold countUpdated
    rw [List.length_eq_zero, List.filter_eq_nil_iff]
    intro a ha
    rw [hinert a ha]
    simp
  · rw [ht2]
    have hid : ∀ x ∈ (monHandler env table).2,
        updFor env2 ((monHandler env table).2.filter fun it => it.status == "InProgress") x
          = x := by
      intro x hx
      unfold updFor
      cases hf : ((monHandler env table).2.filter fun it => it.status == "InProgress").find?
          (fun i => i.jobId == x.jobId) with
      | none => rfl
      | some j =>
        have hj := List.mem_of_find?_eq_some hf
        dsimp only
        rw [hinert j hj]
    rw [map_congr_fun _ _ id hid, List.map_id]

/-- C7: per-job backend failures never abort the pass: `jobsChecked` equals
the number of non-skipped in-progress records, a quantity independent of the
backend oracle; the response is always 200 with the aggregate counts; and
records without a usable `jobArn` or with `method = direct_processing` are
never touched, even when their status reads `InProgress`. -/
theorem c7_error_isolation (env : MonEnv) (table : List JobItem)
    (hnd : (table.map JobItem.jobId).Nodup) :
    (monHandler env table).1.statusCode = 200 ∧
    (monHandler env table).1.jobsChecked
      = countChecked (table.filter fun it => it.status == "InProgress") ∧
    (∀ r ∈ table, skipItem r = true →
      ((monHandler env table).2.find? fun x => x.jobId == r.jobId) = some r) := by
  obtain ⟨ht, hc, hu0, hs⟩ := monHandler_char env table hnd
  refine ⟨hs, hc, ?_⟩
  intro r hr hskip
  have hFid : ∀ x, (updFor env (table.filter fun it => it.status == "InProgress") x).jobId
      = x.jobId :=
    fun x => updFor_jobId env _ x
  rw [ht, find?_map_keyed _ hFid table r.jobId, find?_key_self table r hnd hr]
  show some (updFor env _ r) = some r
  unfold updFor
  cases hf : (table.filter fun it => it.status == "InProgress").find?
      (fun x => x.jobId == r.jobId) with
  | none => rfl
  | some i0 =>
    have hi0 : i0 ∈ table := List.mem_of_mem_filter (List.mem_of_find?_eq_some hf)
    have hkey : i0.jobId = r.jobId := by
      have := List.find?_some hf
      exact beq_iff_eq.mp this
    have hir : i0 = r := List.inj_on_of_nodup_map hnd hi0 hr hkey
    subst hir
    have hupd : itemUpdate env i0 = none := by
      unfold itemUpdate
      rw [hskip]
      rfl
    dsimp only
    rw [hupd]

/-- C8: when the backend reports a terminal status for an in-progress
async-model record, the update sets `status` and `completedAt`; it sets
`failureReason` to the backend's `failureMessage` (or the fixed
`"Unknown failure"` placeholder) exactly when the status is `Failed`, and
leaves `failureReason` untouched for `Completed`/`Stopped`. -/
theorem c8_failed_update (env : MonEnv) (r : JobItem) (arn : String) (j : BedrockJob)
    (hst : r.status = "InProgress") (harn : r.jobArn = some arn) (hne : arn ≠ "")
    (hm : r.method ≠ some "direct_processing")
    (hq : env.getJob arn = .ok j) (hterm : terminalStr j.status = true) :
    (monHandler env [r]).2 =
      [{ r with
         status := j.status, completedAt := some env.nowIso,
         failureReason := if j.status == "Failed"
           then some (j.failureMessage.getD "Unknown failure") else r.failureReason }] ∧
    (monHandler env [r]).1.jobsUpdated = 1 ∧
    (monHandler env [r]).1.jobsChecked = 1 := by
  have hskip : skipItem r = false := by
    unfold skipItem
    rw [harn]
    simp only [Bool.or_eq_false_iff, beq_eq_false_iff_ne]
    exact ⟨hne, hm⟩
  have hupd : itemUpdate env r = some (j.status,
      if j.status == "Failed" then some (j.failureMessage.getD "Unknown failure")
      else none) := by
    unfold itemUpdate
    rw [if_neg (by simp [hskip]), harn]
    dsimp only
    rw [hq]
    dsimp only
    rw [if_pos hterm]
  have hprog : (r.status == "InProgress") = true := by
    rw [hst]
    decide
  have hfilter : ([r].filter fun it => it.status == "InProgress") = [r] := by
    simp [List.filter_cons, hprog]
  simp only [monHandler, hfilter, List.foldl_cons, List.foldl_nil]
  rw [monStep_update env ([r], 0, 0) r _ hskip hupd]
  refine ⟨?_, rfl, rfl⟩
  show updateTable [r] r.jobId j.status env.nowIso _ = _
  unfold updateTable applyJobUpdate
  simp only [List.map_cons, List.map_nil, if_pos rfl]
  cases hfs : (j.status == "Failed") with
  | true => simp
  | false => simp

theorem c6_witness :
    (∀ r ∈ [recInProg, recDone], terminalStr r.status = true →
      ((monHandler monEnvC [recInProg, recDone]).2.find? fun x => x.jobId == r.jobId)
        = some r) ∧
    (monHandler monEnvC (monHandler monEnvC [recInProg, recDone]).2).1.jobsUpdated = 0 ∧
    (monHandler monEnvC (monHandler monEnvC [recInProg, recDone]).2).2
      = (monHandler monEnvC [recInProg, recDone]).2 :=
  c6_terminal_monotonic monEnvC monEnvC [recInProg, recDone] (by decide) rfl

theorem c7_witness :
    (monHandler monEnvC [recInProg, recDone]).1.statusCode = 200 ∧
    (monHandler monEnvC [recInProg, recDone]).1.jobsChecked
      = countChecked ([recInProg, recDone].filter fun it => it.status == "InProgress") ∧
    (∀ r ∈ [recInProg, recDone], skipItem r = true →
      ((monHandler monEnvC [recInProg, recDone]).2.find? fun x => x.jobId == r.jobId)
        = some r) :=
  c7_error_isolation monEnvC [recInProg, recDone] (by decide)

theorem c8_witness :
    (monHandler monEnvC [recInProg]).2 =
      [{ recInProg with
         status := "Failed", completedAt := some "t1",
         failureReason := some "quota exceeded" }] ∧
    (monHandler monEnvC [recInProg]).1.jobsUpdated = 1 ∧
    (monHandler monEnvC [recInProg]).1.jobsChecked = 1 := by
  have h := c8_failed_update monEnvC recInProg "arn:1"
    { status := "Failed", failureMessage := some "quota exceeded" } rfl rfl (by decide)
    (by decide) rfl (by decide)
  obtain ⟨h1, h2, h3⟩ := h
  refine ⟨?_, h2, h3⟩
  rw [h1]
  decide

/-! ## Theorems: deterministic pattern strategy, concrete cases (C9) -/

/-- C9: both credit-card forms redact to the credit-card tag (the phone rule,
which runs first, leaves both untouched), and a bare 15-digit sequence is not
matched by any rule. -/
theorem c9_cc_examples :
    redactText "4111-1111-1111-1111" = "<PII_CREDIT_CARD>" ∧
    redactText "4111111111111111" = "<PII_CREDIT_CARD>" ∧
    redactText "411111111111111" = "411111111111111" ∧
    subst phMatch tagPH "4111-1111-1111-1111".toList = "4111-1111-1111-1111".toList ∧
    subst phMatch tagPH "4111111111111111".toList = "4111111111111111".toList := by decide

/-! ## Idempotence of the deterministic strategy (C4).

Plan: a match of any of the four patterns in the final redacted text could be
transported back to a match in the text one of the passes scanned, where the
scan is known to have found none; hence no pattern matches in `redactL l`,
and a second application of `redactL` is the identity.  The transport uses
the declarative witnesses, the word-boundary bookkeeping (`WordRel`), and the
fact that the replacement tags begin with `'<'` and end with `'>'`, characters
outside every pattern class. -/

theorem isDigit_toNat {c : Char} (h : isDigit c = true) : 48 ≤ c.toNat ∧ c.toNat ≤ 57 := by
  unfold isDigit at h
  simp only [Bool.and_eq_true, decide_eq_true_eq] at h
  exact h

theorem isWordChar_of_digit {c : Char} (h : isDigit c = true) : isWordChar c = true := by
  obtain ⟨h1, h2⟩ := isDigit_toNat h
  unfold isWordChar
  simp only [Bool.or_eq_true, Bool.and_eq_true, decide_eq_true_eq, beq_iff_eq]
  omega

theorem not_ccSep_of_digit {c : Char} (h : isDigit c = true) : ccSep c = false := by
  obtain ⟨h1, h2⟩ := isDigit_toNat h
  unfold ccSep psSpace
  simp only [Bool.or_eq_false_iff, beq_eq_false_iff_ne, ne_eq]
  omega

theorem not_phSep_of_digit {c : Char} (h : isDigit c = true) : phSep c = false := by
  obtain ⟨h1, h2⟩ := isDigit_toNat h
  unfold phSep psSpace
  simp only [Bool.or_eq_false_iff, beq_eq_false_iff_ne, ne_eq]
  omega

theorem not_lparen_of_digit {c : Char} (h : isDigit c = true) : (c == '(') = false := by
  rw [beq_eq_false_iff_ne]
  rintro rfl
  exact absurd h (by decide)

theorem not_rparen_of_digit {c : Char} (h : isDigit c = true) : (c == ')') = false := by
  rw [beq_eq_false_iff_ne]
  rintro rfl
  exact absurd h (by decide)

/-! ### List helpers -/

theorem headW_append (a b : List Char) (ha : a ≠ []) : headW (a ++ b) = headW a := by
  cases a with
  | nil => exact absurd rfl ha
  | cons c t => rfl

theorem headW_cons (c : Char) (t : List Char) : headW (c :: t) = isWordChar c := rfl

theorem wAfter_nil (w : Bool) : wAfter w [] = w := rfl

theorem wAfter_cons (w : Bool) (c : Char) (t : List Char) :
    wAfter w (c :: t) = wAfter (isWordChar c) t := by
  unfold wAfter
  cases t with
  | nil => rfl
  | cons d t' =>
    rw [List.getLast?_cons_cons]
    cases hg : (d :: t').getLast? with
    | none => exact absurd (List.getLast?_eq_none_iff.mp hg) (by simp)
    | some e => rfl

theorem wAfter_append (w : Bool) (a b : List Char) :
    wAfter w (a ++ b) = wAfter (wAfter w a) b := by
  induction a generalizing w with
  | nil => rfl
  | cons c t ih => rw [List.cons_append, wAfter_cons, wAfter_cons, ih]

theorem wAfter_of_ne_nil (w : Bool) (a : List Char) (h : a ≠ []) : wAfter w a = lastW a := by
  unfold wAfter lastW
  cases hg : a.getLast? with
  | none => exact absurd (List.getLast?_eq_none_iff.mp hg) h
  | some c => rfl

theorem lastW_append (a b : List Char) (hb : b ≠ []) : lastW (a ++ b) = lastW b := by
  unfold lastW
  rw [List.getLast?_append_of_ne_nil a hb]

theorem digitsN_take (n : Nat) (l : List Char) (h : digitsN n l = true) :
    (l.take n).length = n ∧ ∀ x ∈ l.take n, isDigit x = true := by
  induction n generalizing l with
  | zero => simp
  | succ m ih =>
    cases l with
    | nil => simp [digitsN] at h
    | cons c rest =>
      unfold digitsN at h
      rw [Bool.and_eq_true] at h
      obtain ⟨ihl, ihm⟩ := ih rest h.2
      rw [List.take_succ_cons]
      refine ⟨by simp [ihl], ?_⟩
      intro x hx
      rcases List.mem_cons.mp hx with rfl | hx'
      · exact h.1
      · exact ihm x hx'

theorem digitsN_append (n : Nat) (a rest : List Char) (hl : a.length = n)
    (hd : ∀ x ∈ a, isDigit x = true) : digitsN n (a ++ rest) = true := by
  induction a generalizing n with
  | nil => simp at hl; subst hl; rfl
  | cons c t ih =>
    simp only [List.length_cons] at hl
    subst hl
    show digitsN (t.length + 1) (c :: (t ++ rest)) = true
    unfold digitsN
    rw [Bool.and_eq_true]
    exact ⟨hd c (by simp), ih t.length rfl fun x hx => hd x (by simp [hx])⟩

theorem digitsN_length (n : Nat) (l : List Char) (h : digitsN n l = true) : n ≤ l.length := by
  induction n generalizing l with
  | zero => omega
  | succ m ih =>
    cases l with
    | nil => simp [digitsN] at h
    | cons c rest =>
      unfold digitsN at h
      rw [Bool.and_eq_true] at h
      have := ih rest h.2
      simp only [List.length_cons]
      omega

theorem digitsN_head (n : Nat) (l : List Char) (h : digitsN (n + 1) l = true) :
    ∃ c rest, l = c :: rest ∧ isDigit c = true := by
  cases l with
  | nil => simp [digitsN] at h
  | cons c rest =>
    unfold digitsN at h
    rw [Bool.and_eq_true] at h
    exact ⟨c, rest, rfl, h.1⟩

theorem run_append_stop (p : Char → Bool) (a : List Char) (x : Char) (b : List Char)
    (ha : ∀ c ∈ a, p c = true) (hx : p x = false) : run p (a ++ x :: b) = a.length := by
  induction a with
  | nil => simp [run, hx]
  | cons c t ih =>
    rw [List.cons_append]
    unfold run
    rw [if_pos (ha c (by simp)), ih fun d hd => ha d (by simp [hd])]
    rfl

theorem run_ge_front (p : Char → Bool) (a b : List Char)
    (ha : ∀ c ∈ a, p c = true) : a.length ≤ run p (a ++ b) := by
  induction a with
  | nil => simp
  | cons c t ih =>
    rw [List.cons_append]
    unfold run
    rw [if_pos (ha c (by simp))]
    have := ih fun d hd => ha d (by simp [hd])
    simp only [List.length_cons]
    omega

theorem run_le_length (p : Char → Bool) (l : List Char) : run p l ≤ l.length := by
  induction l with
  | nil => simp [run]
  | cons c t ih =>
    unfold run
    by_cases h : p c = true
    · rw [if_pos h]
      simp only [List.length_cons]
      omega
    · rw [if_neg h]
      omega

theorem take_run_mem (p : Char → Bool) (l : List Char) :
    ∀ x ∈ l.take (run p l), p x = true := by
  induction l with
  | nil => simp
  | cons c t ih =>
    unfold run
    by_cases h : p c = true
    · rw [if_pos h, List.take_succ_cons]
      intro x hx
      rcases List.mem_cons.mp hx with rfl | hx'
      · exact h
      · exact ih x hx'
    · rw [if_neg h]
      simp

theorem take_le_run_mem (p : Char → Bool) (l : List Char) (d : Nat) (hd : d ≤ run p l) :
    ∀ x ∈ l.take d, p x = true := by
  intro x hx
  have : l.take d = (l.take (run p l)).take d := by
    rw [List.take_take, Nat.min_eq_left hd]
  rw [this] at hx
  exact take_run_mem p l x (List.take_subset d _ hx)

theorem run_stop_get (p : Char → Bool) (l : List Char) (c : Char)
    (h : l.get? (run p l) = some c) : p c = false := by
  induction l with
  | nil => simp at h
  | cons d t ih =>
    unfold run at h
    by_cases hp : p d = true
    · rw [if_pos hp] at h
      exact ih (by simpa using h)
    · rw [if_neg hp] at h
      simp only [List.get?_cons_zero, Option.some.injEq] at h
      subst h
      exact Bool.eq_false_iff.mpr hp

/-! ### Matcher inversion lemmas -/

theorem ssnMatch_inv (w : Bool) (l : List Char) (n : Nat) (h : ssnMatch w l = some n) :
    bdryB w l = true ∧ digitsN 3 l = true ∧ l.get? 3 = some '-' ∧
    digitsN 2 (l.drop 4) = true ∧ l.get? 6 = some '-' ∧ digitsN 4 (l.drop 7) = true ∧
    headW (l.drop 11) = false ∧ n = 11 := by
  unfold ssnMatch at h
  split at h
  · rename_i hc
    simp only [Bool.and_eq_true, Bool.not_eq_true', beq_iff_eq] at hc
    obtain rfl := (Option.some.inj h).symm
    exact ⟨hc.1.1.1.1.1.1, hc.1.1.1.1.1.2, hc.1.1.1.1.2, hc.1.1.1.2, hc.1.1.2, hc.1.2,
      hc.2, rfl⟩
  · cases h

theorem ccMatch_inv (w : Bool) (l : List Char) (n : Nat) (h : ccMatch w l = some n) :
    ∃ i1 i2 i3,
      i1 = 4 + optSep ccSep (l.drop 4) ∧
      i2 = i1 + 4 + optSep ccSep (l.drop (i1 + 4)) ∧
      i3 = i2 + 4 + optSep ccSep (l.drop (i2 + 4)) ∧
      bdryB w l = true ∧ digitsN 4 l = true ∧ digitsN 4 (l.drop i1) = true ∧
      digitsN 4 (l.drop i2) = true ∧ digitsN 4 (l.drop i3) = true ∧
      headW (l.drop (i3 + 4)) = false ∧ n = i3 + 4 := by
  simp only [ccMatch] at h
  split at h
  · cases h
  split at h
  · cases h
  split at h
  · cases h
  split at h
  · cases h
  split at h
  · cases h
  split at h
  · cases h
  rename_i h1 h2 h3 h4 h5 h6
  simp only [Bool.not_eq_true, Bool.not_eq_false'] at h1 h2 h3 h4 h5
  rw [Bool.not_eq_true] at h6
  exact ⟨_, _, _, rfl, rfl, rfl, h1, h2, h3, h4, h5, h6, (Option.some.inj h).symm⟩

theorem phMatch_inv (w : Bool) (l : List Char) (n : Nat) (h : phMatch w l = some n) :
    ∃ i0 i1 i2 i3,
      i0 = optSep (fun c => c == '(') l ∧
      i1 = i0 + 3 + optSep (fun c => c == ')') (l.drop (i0 + 3)) ∧
      i2 = i1 + optSep phSep (l.drop i1) ∧
      i3 = i2 + 3 + optSep phSep (l.drop (i2 + 3)) ∧
      bdryB w l = true ∧ digitsN 3 (l.drop i0) = true ∧ digitsN 3 (l.drop i2) = true ∧
      digitsN 4 (l.drop i3) = true ∧
      headW (l.drop (i3 + 4)) = false ∧ n = i3 + 4 := by
  simp only [phMatch] at h
  split at h
  · cases h
  split at h
  · cases h
  split at h
  · cases h
  split at h
  · cases h
  split at h
  · cases h
  rename_i h1 h2 h3 h4 h5
  simp only [Bool.not_eq_true, Bool.not_eq_false'] at h1 h2 h3 h4
  rw [Bool.not_eq_true] at h5
  exact ⟨_, _, _, _, rfl, rfl, rfl, rfl, h1, h2, h3, h4, h5, (Option.some.inj h).symm⟩

theorem emTryT_inv (l2 : List Char) :
    ∀ t0 t, emTryT l2 t0 = some t →
      2 ≤ t ∧ t ≤ t0 ∧ (wordAtIdx l2 (t - 1) != headW (l2.drop t)) = true
  | 0, t, h => by simp [emTryT] at h
  | 1, t, h => by simp [emTryT] at h
  | k + 2, t, h => by
    rw [emTryT] at h
    split at h
    · rename_i hc
      obtain rfl := (Option.some.inj h).symm
      exact ⟨by omega, by omega, by simpa using hc⟩
    · have ih := emTryT_inv l2 (k + 1) t h
      exact ⟨ih.1, by omega, ih.2.2⟩

theorem emTryT_complete (l2 : List Char) :
    ∀ t0 t, 2 ≤ t → t ≤ t0 → (wordAtIdx l2 (t - 1) != headW (l2.drop t)) = true →
      (emTryT l2 t0).isSome = true
  | 0, t, h2, hle, _ => by omega
  | 1, t, h2, hle, _ => by omega
  | k + 2, t, h2, hle, hc => by
    rw [emTryT]
    split
    · rfl
    · rename_i hne
      have htne : t ≠ k + 2 := by
        rintro rfl
        exact hne (by rw [show k + 2 - 1 = k + 1 from rfl] at hc; exact hc)
      exact emTryT_complete l2 (k + 1) t h2 (by omega) hc

theorem emTryD_inv (l1 : List Char) :
    ∀ d0 r, emTryD l1 d0 = some r →
      ∃ d t, 1 ≤ d ∧ d ≤ d0 ∧ l1.get? d = some '.' ∧
        emTryT (l1.drop (d + 1)) (run tldCls (l1.drop (d + 1))) = some t ∧ r = d + 1 + t
  | 0, r, h => by simp [emTryD] at h
  | k + 1, r, h => by
    rw [emTryD] at h
    split at h
    · rename_i t hfound
      split at hfound
      · rename_i hdot
        exact ⟨k + 1, t, by omega, by omega, beq_iff_eq.mp (by simpa using hdot), hfound,
          (Option.some.inj h).symm⟩
      · cases hfound
    · have ih := emTryD_inv l1 k r h
      obtain ⟨d, t, hd1, hd2, hdot, htt, hr⟩ := ih
      exact ⟨d, t, hd1, by omega, hdot, htt, hr⟩

theorem emTryD_complete (l1 : List Char) :
    ∀ d0 d, 1 ≤ d → d ≤ d0 → l1.get? d = some '.' →
      (emTryT (l1.drop (d + 1)) (run tldCls (l1.drop (d + 1)))).isSome = true →
      (emTryD l1 d0).isSome = true
  | 0, d, h1, hle, _, _ => by omega
  | k + 1, d, h1, hle, hdot, htt => by
    rw [emTryD]
    cases hm : (if l1.get? (k + 1) == some '.' then
        emTryT (l1.drop (k + 2)) (run tldCls (l1.drop (k + 2))) else none) with
    | some t => rfl
    | none =>
      have hne : d ≠ k + 1 := by
        rintro rfl
        rw [if_pos (by rw [beq_iff_eq]; exact hdot)] at hm
        rw [show k + 1 + 1 = k + 2 from rfl] at htt
        rw [hm] at htt
        simp at htt
      exact emTryD_complete l1 k d h1 (by omega) hdot htt

theorem emMatch_inv (w : Bool) (l : List Char) (n : Nat) (h : emMatch w l = some n) :
    bdryB w l = true ∧ 1 ≤ run localCls l ∧ l.get? (run localCls l) = some '@' ∧
    ∃ r, emTryD (l.drop (run localCls l + 1)) (run domCls (l.drop (run localCls l + 1)))
        = some r ∧ n = run localCls l + 1 + r := by
  simp only [emMatch] at h
  split at h
  · cases h
  split at h
  · cases h
  split at h
  · cases h
  rename_i h1 h2 h3
  split at h
  · rename_i r hr
    rw [Bool.not_eq_true, Bool.not_eq_false'] at h1
    refine ⟨h1, ?_, ?_, r, hr, (Option.some.inj h).symm⟩
    · rcases Nat.eq_zero_or_pos (run localCls l) with hz | hp
      · rw [hz] at h2
        simp at h2
      · omega
    · rw [Bool.not_eq_true, Bool.not_eq_false'] at h3
      exact beq_iff_eq.mp h3
  · cases h

/-! ### More helpers: single-position facts, optional separators, bounds -/

theorem drop_eq_cons_of_get? {α : Type} (l : List α) (k : Nat) (c : α)
    (h : l.get? k = some c) : l.drop k = c :: l.drop (k + 1) := by
  induction l generalizing k with
  | nil => simp at h
  | cons d t ih =>
    cases k with
    | zero =>
      simp only [List.get?_cons_zero, Option.some.injEq] at h
      subst h
      rfl
    | succ m =>
      simp only [List.get?_cons_succ] at h
      simp only [List.drop_succ_cons]
      exact ih m h

theorem headW_take (l : List Char) (n : Nat) (hn : 1 ≤ n) :
    headW (l.take n) = headW l := by
  cases l with
  | nil => simp
  | cons c t =>
    cases n with
    | zero => omega
    | succ m => rfl

theorem lastW_cons_ne (c : Char) (t : List Char) (h : t ≠ []) :
    lastW (c :: t) = lastW t := by
  unfold lastW
  cases t with
  | nil => exact absurd rfl h
  | cons d t' => rw [List.getLast?_cons_cons]

theorem bne_true_eq_not {a b : Bool} (h : (a != b) = true) : a = !b := by
  cases a <;> cases b <;> simp_all

theorem bdry_headW {w : Bool} {l : List Char} (h : bdryB w l = true) : headW l = !w := by
  unfold bdryB at h
  cases w <;> cases hh : headW l <;> simp_all

theorem optSep_eq_one (p : Char → Bool) (l : List Char) (h : optSep p l = 1) :
    ∃ c rest, l = c :: rest ∧ p c = true := by
  cases l with
  | nil => simp [optSep] at h
  | cons c rest =>
    simp only [optSep] at h
    by_cases hp : p c = true
    · exact ⟨c, rest, rfl, hp⟩
    · rw [if_neg hp] at h
      omega

theorem optSep_le_one (p : Char → Bool) (l : List Char) : optSep p l ≤ 1 := by
  cases l with
  | nil => simp [optSep]
  | cons c rest =>
    simp only [optSep]
    by_cases hp : p c = true
    · rw [if_pos hp]
    · rw [if_neg hp]
      omega

theorem optSep_zero_or_one (p : Char → Bool) (l : List Char) :
    optSep p l = 0 ∨ optSep p l = 1 := by
  have := optSep_le_one p l
  omega

theorem take_add_drop (l : List Char) (a m k : Nat) :
    (l.drop a).take (m + k) = (l.drop a).take m ++ (l.drop (a + m)).take k := by
  rw [List.take_add, List.drop_drop]

theorem optSep_cons_pos (p : Char → Bool) (c : Char) (rest : List Char) (h : p c = true) :
    optSep p (c :: rest) = 1 := by
  simp only [optSep]
  rw [if_pos h]

theorem optSep_cons_neg (p : Char → Bool) (c : Char) (rest : List Char) (h : p c = false) :
    optSep p (c :: rest) = 0 := by
  simp only [optSep]
  rw [if_neg (by simp [h])]

/-! ### Matcher positivity -/

theorem ssnMatch_pos (w : Bool) (l : List Char) (n : Nat) (h : ssnMatch w l = some n) :
    1 ≤ n ∧ n ≤ l.length := by
  obtain ⟨_, _, _, _, _, hd4, _, rfl⟩ := ssnMatch_inv w l n h
  have := digitsN_length 4 (l.drop 7) hd4
  rw [List.length_drop] at this
  omega

theorem ccMatch_pos (w : Bool) (l : List Char) (n : Nat) (h : ccMatch w l = some n) :
    1 ≤ n ∧ n ≤ l.length := by
  obtain ⟨i1, i2, i3, e1, e2, e3, _, _, _, _, hd, _, rfl⟩ := ccMatch_inv w l n h
  have := digitsN_length 4 (l.drop i3) hd
  rw [List.length_drop] at this
  omega

theorem phMatch_pos (w : Bool) (l : List Char) (n : Nat) (h : phMatch w l = some n) :
    1 ≤ n ∧ n ≤ l.length := by
  obtain ⟨i0, i1, i2, i3, e0, e1, e2, e3, _, _, _, hd, _, rfl⟩ := phMatch_inv w l n h
  have := digitsN_length 4 (l.drop i3) hd
  rw [List.length_drop] at this
  omega

theorem emMatch_pos (w : Bool) (l : List Char) (n : Nat) (h : emMatch w l = some n) :
    1 ≤ n ∧ n ≤ l.length := by
  obtain ⟨hb, hll, hat, r, hd, rfl⟩ := emMatch_inv w l n h
  obtain ⟨d, t, hd1, hdle, hdot, htt, rfl⟩ := emTryD_inv _ _ r hd
  obtain ⟨ht2, htle, _⟩ := emTryT_inv _ _ t htt
  have h1 : run localCls l < l.length := by
    rcases List.get?_eq_some.mp hat with ⟨hlt, _⟩
    exact hlt
  have h2 : d < (l.drop (run localCls l + 1)).length := by
    rcases List.get?_eq_some.mp hdot with ⟨hlt, _⟩
    exact hlt
  have h3 : t ≤ ((l.drop (run localCls l + 1)).drop (d + 1)).length := by
    calc t ≤ run tldCls ((l.drop (run localCls l + 1)).drop (d + 1)) := htle
    _ ≤ _ := run_le_length _ _
  rw [List.length_drop] at h2
  rw [List.length_drop, List.length_drop] at h3
  omega

/-! ### Matcher soundness: a match yields a declarative witness -/

theorem ssnMatch_sound (w : Bool) (l : List Char) (n : Nat) (h : ssnMatch w l = some n) :
    SsnWit w (l.take n) (headW (l.drop n)) := by
  obtain ⟨hb, hd3, hg3, hd2, hg6, hd4, hW, rfl⟩ := ssnMatch_inv w l n h
  obtain ⟨hl3, hm3⟩ := digitsN_take 3 l hd3
  obtain ⟨hl2, hm2⟩ := digitsN_take 2 (l.drop 4) hd2
  obtain ⟨hl4, hm4⟩ := digitsN_take 4 (l.drop 7) hd4
  have e2 : l.drop 3 = '-' :: l.drop 4 := drop_eq_cons_of_get? l 3 '-' hg3
  have e5 : l.drop 6 = '-' :: l.drop 7 := drop_eq_cons_of_get? l 6 '-' hg6
  have e4 : (l.drop 4).drop 2 = l.drop 6 := by
    rw [List.drop_drop]
  have hw : w = false := by
    obtain ⟨c, rest, hl, hdc⟩ := digitsN_head 2 l hd3
    have hh : headW l = !w := bdry_headW hb
    rw [hl, headW_cons, isWordChar_of_digit hdc] at hh
    cases w
    · rfl
    · simp at hh
  refine ⟨l.take 3, (l.drop 4).take 2, (l.drop 7).take 4, ?_, hl3, hl2, hl4, hm3, hm2, hm4,
    hw, hW⟩
  rw [show (11 : Nat) = 3 + 8 from rfl, List.take_add, e2,
    show (8 : Nat) = 7 + 1 from rfl, List.take_succ_cons,
    show (7 : Nat) = 2 + 5 from rfl, List.take_add, e4, e5,
    show (5 : Nat) = 4 + 1 from rfl, List.take_succ_cons]

theorem lastW_take (l : List Char) (t : Nat) (h1 : 1 ≤ t) (h2 : t ≤ l.length) :
    lastW (l.take t) = wordAtIdx l (t - 1) := by
  unfold lastW wordAtIdx
  rw [List.getLast?_eq_get? (l.take t), List.length_take, Nat.min_eq_left h2,
    List.get?_take (by omega)]

theorem ccMatch_sound (w : Bool) (l : List Char) (n : Nat) (h : ccMatch w l = some n) :
    CcWit w (l.take n) (headW (l.drop n)) := by
  obtain ⟨i1, i2, i3, e1, e2, e3, hb, hd1, hdi1, hdi2, hdi3, hW, rfl⟩ := ccMatch_inv w l n h
  obtain ⟨hg1l, hg1m⟩ := digitsN_take 4 l hd1
  obtain ⟨hg2l, hg2m⟩ := digitsN_take 4 (l.drop i1) hdi1
  obtain ⟨hg3l, hg3m⟩ := digitsN_take 4 (l.drop i2) hdi2
  obtain ⟨hg4l, hg4m⟩ := digitsN_take 4 (l.drop i3) hdi3
  have hw : w = false := by
    obtain ⟨c, rest, hl, hdc⟩ := digitsN_head 3 l hd1
    have hh : headW l = !w := bdry_headW hb
    rw [hl, headW_cons, isWordChar_of_digit hdc] at hh
    cases w
    · rfl
    · simp at hh
  have hs1 : (l.drop 4).take (optSep ccSep (l.drop 4)) = [] ∨
      ∃ c, (l.drop 4).take (optSep ccSep (l.drop 4)) = [c] ∧ ccSep c = true := by
    rcases optSep_zero_or_one ccSep (l.drop 4) with hz | ho
    · rw [hz]
      exact Or.inl rfl
    · obtain ⟨c, rest, hcr, hcc⟩ := optSep_eq_one _ _ ho
      rw [ho, hcr]
      exact Or.inr ⟨c, rfl, hcc⟩
  have hs2 : (l.drop (i1 + 4)).take (optSep ccSep (l.drop (i1 + 4))) = [] ∨
      ∃ c, (l.drop (i1 + 4)).take (optSep ccSep (l.drop (i1 + 4))) = [c] ∧ ccSep c = true := by
    rcases optSep_zero_or_one ccSep (l.drop (i1 + 4)) with hz | ho
    · rw [hz]
      exact Or.inl rfl
    · obtain ⟨c, rest, hcr, hcc⟩ := optSep_eq_one _ _ ho
      rw [ho, hcr]
      exact Or.inr ⟨c, rfl, hcc⟩
  have hs3 : (l.drop (i2 + 4)).take (optSep ccSep (l.drop (i2 + 4))) = [] ∨
      ∃ c, (l.drop (i2 + 4)).take (optSep ccSep (l.drop (i2 + 4))) = [c] ∧ ccSep c = true := by
    rcases optSep_zero_or_one ccSep (l.drop (i2 + 4)) with hz | ho
    · rw [hz]
      exact Or.inl rfl
    · obtain ⟨c, rest, hcr, hcc⟩ := optSep_eq_one _ _ ho
      rw [ho, hcr]
      exact Or.inr ⟨c, rfl, hcc⟩
  refine ⟨l.take 4, (l.drop 4).take (optSep ccSep (l.drop 4)), (l.drop i1).take 4,
    (l.drop (i1 + 4)).take (optSep ccSep (l.drop (i1 + 4))), (l.drop i2).take 4,
    (l.drop (i2 + 4)).take (optSep ccSep (l.drop (i2 + 4))), (l.drop i3).take 4,
    ?_, hg1l, hg2l, hg3l, hg4l, hg1m, hg2m, hg3m, hg4m, hs1, hs2, hs3, hw, hW⟩
  rw [show i3 + 4 = 4 + (optSep ccSep (l.drop 4) + (4 + (optSep ccSep (l.drop (i1 + 4))
      + (4 + (optSep ccSep (l.drop (i2 + 4)) + 4))))) from by omega,
    List.take_add, take_add_drop l 4,
    show 4 + optSep ccSep (l.drop 4) = i1 from by omega,
    take_add_drop l i1, take_add_drop l (i1 + 4),
    show i1 + 4 + optSep ccSep (l.drop (i1 + 4)) = i2 from by omega,
    take_add_drop l i2, take_add_drop l (i2 + 4),
    show i2 + 4 + optSep ccSep (l.drop (i2 + 4)) = i3 from by omega]

theorem phMatch_sound (w : Bool) (l : List Char) (n : Nat) (h : phMatch w l = some n) :
    PhWit w (l.take n) (headW (l.drop n)) := by
  obtain ⟨i0, i1, i2, i3, e0, e1, e2, e3, hb, hd1, hd2, hd3, hW, rfl⟩ := phMatch_inv w l n h
  obtain ⟨hg1l, hg1m⟩ := digitsN_take 3 (l.drop i0) hd1
  obtain ⟨hg2l, hg2m⟩ := digitsN_take 3 (l.drop i2) hd2
  obtain ⟨hg3l, hg3m⟩ := digitsN_take 4 (l.drop i3) hd3
  have hpa : l.take i0 = [] ∨ l.take i0 = ['('] := by
    rcases optSep_zero_or_one (fun c => c == '(') l with hz | ho
    · rw [e0, hz]
      exact Or.inl rfl
    · obtain ⟨c, rest, hcr, hcc⟩ := optSep_eq_one _ _ ho
      obtain rfl := beq_iff_eq.mp hcc
      rw [e0, ho, hcr]
      exact Or.inr rfl
  have hrp : (l.drop (i0 + 3)).take (optSep (fun c => c == ')') (l.drop (i0 + 3))) = [] ∨
      (l.drop (i0 + 3)).take (optSep (fun c => c == ')') (l.drop (i0 + 3))) = [')'] := by
    rcases optSep_zero_or_one (fun c => c == ')') (l.drop (i0 + 3)) with hz | ho
    · rw [hz]
      exact Or.inl rfl
    · obtain ⟨c, rest, hcr, hcc⟩ := optSep_eq_one _ _ ho
      obtain rfl := beq_iff_eq.mp hcc
      rw [ho, hcr]
      exact Or.inr rfl
  have hs1 : (l.drop i1).take (optSep phSep (l.drop i1)) = [] ∨
      ∃ c, (l.drop i1).take (optSep phSep (l.drop i1)) = [c] ∧ phSep c = true := by
    rcases optSep_zero_or_one phSep (l.drop i1) with hz | ho
    · rw [hz]
      exact Or.inl rfl
    · obtain ⟨c, rest, hcr, hcc⟩ := optSep_eq_one _ _ ho
      rw [ho, hcr]
      exact Or.inr ⟨c, rfl, hcc⟩
  have hs2 : (l.drop (i2 + 3)).take (optSep phSep (l.drop (i2 + 3))) = [] ∨
      ∃ c, (l.drop (i2 + 3)).take (optSep phSep (l.drop (i2 + 3))) = [c] ∧ phSep c = true := by
    rcases optSep_zero_or_one phSep (l.drop (i2 + 3)) with hz | ho
    · rw [hz]
      exact Or.inl rfl
    · obtain ⟨c, rest, hcr, hcc⟩ := optSep_eq_one _ _ ho
      rw [ho, hcr]
      exact Or.inr ⟨c, rfl, hcc⟩
  have hn1 : 1 ≤ i3 + 4 := by omega
  have hlead : headW (l.take (i3 + 4)) = !w := by
    rw [headW_take l (i3 + 4) hn1]
    exact bdry_headW hb
  refine ⟨l.take i0, (l.drop i0).take 3,
    (l.drop (i0 + 3)).take (optSep (fun c => c == ')') (l.drop (i0 + 3))),
    (l.drop i1).take (optSep phSep (l.drop i1)), (l.drop i2).take 3,
    (l.drop (i2 + 3)).take (optSep phSep (l.drop (i2 + 3))), (l.drop i3).take 4,
    ?_, hpa, hrp, hs1, hs2, hg1l, hg2l, hg3l, hg1m, hg2m, hg3m, hlead, hW⟩
  rw [show i3 + 4 = i0 + (3 + (optSep (fun c => c == ')') (l.drop (i0 + 3))
      + (optSep phSep (l.drop i1) + (3 + (optSep phSep (l.drop (i2 + 3)) + 4)))))
      from by omega,
    List.take_add, take_add_drop l i0, take_add_drop l (i0 + 3),
    show i0 + 3 + optSep (fun c => c == ')') (l.drop (i0 + 3)) = i1 from by omega,
    take_add_drop l i1,
    show i1 + optSep phSep (l.drop i1) = i2 from by omega,
    take_add_drop l i2, take_add_drop l (i2 + 3),
    show i2 + 3 + optSep phSep (l.drop (i2 + 3)) = i3 from by omega]

theorem emMatch_sound (w : Bool) (l : List Char) (n : Nat) (h : emMatch w l = some n) :
    EmWit w (l.take n) (headW (l.drop n)) := by
  obtain ⟨hb, hll1, hat, r, hd, rfl⟩ := emMatch_inv w l n h
  obtain ⟨d, t, hd1, hdle, hdot, htt, rfl⟩ := emTryD_inv _ _ r hd
  obtain ⟨ht2, htle, hcond⟩ := emTryT_inv _ _ t htt
  obtain ⟨hlllt, -⟩ := List.get?_eq_some.mp hat
  obtain ⟨hdlt, -⟩ := List.get?_eq_some.mp hdot
  have htlen : t ≤ ((l.drop (run localCls l + 1)).drop (d + 1)).length :=
    le_trans htle (run_le_length _ _)
  have hlolen : (l.take (run localCls l)).length = run localCls l := by
    rw [List.length_take]
    have := run_le_length localCls l
    omega
  have hdomlen : ((l.drop (run localCls l + 1)).take d).length = d := by
    rw [List.length_take]
    omega
  have htldlen : (((l.drop (run localCls l + 1)).drop (d + 1)).take t).length = t := by
    rw [List.length_take]
    omega
  have hspan : l.take (run localCls l + 1 + (d + 1 + t))
      = l.take (run localCls l) ++ '@' :: ((l.drop (run localCls l + 1)).take d
        ++ '.' :: ((l.drop (run localCls l + 1)).drop (d + 1)).take t) := by
    have hdrop2 : l.drop (run localCls l + 1 + d)
        = '.' :: (l.drop (run localCls l + 1)).drop (d + 1) := by
      have h1 : (l.drop (run localCls l + 1)).drop d = l.drop (run localCls l + 1 + d) := by
        rw [List.drop_drop]
      rw [← h1, drop_eq_cons_of_get? (l.drop (run localCls l + 1)) d '.' hdot]
    rw [show run localCls l + 1 + (d + 1 + t)
        = run localCls l + (1 + (d + (1 + t))) from by omega,
      List.take_add, drop_eq_cons_of_get? l (run localCls l) '@' hat,
      show 1 + (d + (1 + t)) = d + (1 + t) + 1 from by omega,
      List.take_succ_cons, take_add_drop l (run localCls l + 1), hdrop2,
      show 1 + t = t + 1 from by omega, List.take_succ_cons]
  have hdropn : l.drop (run localCls l + 1 + (d + 1 + t))
      = ((l.drop (run localCls l + 1)).drop (d + 1)).drop t := by
    rw [List.drop_drop, List.drop_drop]
  refine ⟨l.take (run localCls l), (l.drop (run localCls l + 1)).take d,
    ((l.drop (run localCls l + 1)).drop (d + 1)).take t, hspan, ?_, ?_, ?_, ?_, ?_, ?_, ?_, ?_⟩
  · intro heq
    rw [heq] at hlolen
    simp at hlolen
    omega
  · exact take_run_mem localCls l
  · intro heq
    rw [heq] at hdomlen
    simp at hdomlen
    omega
  · exact take_le_run_mem domCls (l.drop (run localCls l + 1)) d hdle
  · omega
  · exact take_le_run_mem tldCls ((l.drop (run localCls l + 1)).drop (d + 1)) t htle
  · rw [headW_take l _ (by omega)]
    exact bdry_headW hb
  · rw [hspan, lastW_append _ _ (by simp), lastW_cons_ne _ _ (by simp),
      lastW_append _ _ (by simp), lastW_cons_ne _ _ ?tne]
    case tne =>
      intro heq
      rw [heq] at htldlen
      simp at htldlen
      omega
    rw [lastW_take _ t (by omega) htlen, hdropn]
    exact bne_true_eq_not hcond

/-! ### Matcher completeness: a declarative witness re-establishes a match -/

theorem get?_append_length {α : Type} (a : List α) (y : α) (X : List α) :
    (a ++ y :: X).get? a.length = some y := by
  rw [List.get?_append_right (Nat.le_refl _)]
  simp

theorem drop_append_cons {α : Type} (a : List α) (y : α) (X : List α) :
    (a ++ y :: X).drop (a.length + 1) = X := by
  rw [← List.drop_drop, List.drop_left]
  rfl

theorem ne_nil_of_length_eq {α : Type} (l : List α) (k : Nat) (h : l.length = k + 1) :
    l ≠ [] := by
  intro heq
  rw [heq] at h
  simp at h

theorem group_cons (g : List Char) (k : Nat) (hl : g.length = k + 1)
    (hd : ∀ x ∈ g, isDigit x = true) :
    ∃ c t, g = c :: t ∧ isDigit c = true := by
  cases g with
  | nil => simp at hl
  | cons c t => exact ⟨c, t, rfl, hd c (by simp)⟩

theorem optSep_sep_digit (p : Char → Bool) (s Z : List Char)
    (hs : s = [] ∨ ∃ c, s = [c] ∧ p c = true)
    (hz : ∃ z0 Ztl, Z = z0 :: Ztl ∧ p z0 = false) :
    optSep p (s ++ Z) = s.length := by
  rcases hs with rfl | ⟨c, rfl, hc⟩
  · obtain ⟨z0, Ztl, rfl, hz0⟩ := hz
    simpa using optSep_cons_neg p z0 Ztl hz0
  · simpa using optSep_cons_pos p c _ hc

theorem bdry_of_headW {w : Bool} (l : List Char) (hh : headW l = !w) :
    bdryB w l = true := by
  unfold bdryB
  rw [hh]
  cases w <;> rfl

theorem lastW_eq_wordAtIdx (l : List Char) : lastW l = wordAtIdx l (l.length - 1) := by
  unfold lastW wordAtIdx
  rw [List.getLast?_eq_get?]

theorem ssnMatch_complete (w : Bool) (span : List Char) (nw : Bool) (rest : List Char)
    (hW : SsnWit w span nw) (hr : headW rest = nw) :
    (ssnMatch w (span ++ rest)).isSome = true := by
  obtain ⟨a, b, c3, rfl, hla, hlb, hlc, hda, hdb, hdc, rfl, rfl⟩ := hW
  have hl' : (a ++ '-' :: (b ++ '-' :: c3)) ++ rest
      = a ++ '-' :: (b ++ '-' :: (c3 ++ rest)) := by simp
  rw [hl']
  have hdrop4 : (a ++ '-' :: (b ++ '-' :: (c3 ++ rest))).drop 4 = b ++ '-' :: (c3 ++ rest) := by
    rw [show (4 : Nat) = a.length + 1 from by omega, drop_append_cons]
  have hdrop7 : (a ++ '-' :: (b ++ '-' :: (c3 ++ rest))).drop 7 = c3 ++ rest := by
    rw [show (7 : Nat) = (a.length + 1) + (b.length + 1) from by omega, ← List.drop_drop,
      drop_append_cons, drop_append_cons]
  have hdrop11 : (a ++ '-' :: (b ++ '-' :: (c3 ++ rest))).drop 11 = rest := by
    rw [show (11 : Nat) = (a.length + 1) + ((b.length + 1) + c3.length) from by omega,
      ← List.drop_drop, drop_append_cons, ← List.drop_drop, drop_append_cons,
      List.drop_left]
  have hget3 : (a ++ '-' :: (b ++ '-' :: (c3 ++ rest))).get? 3 = some '-' := by
    rw [show (3 : Nat) = a.length from by omega, get?_append_length]
  have hget6 : (a ++ '-' :: (b ++ '-' :: (c3 ++ rest))).get? 6 = some '-' := by
    rw [show (6 : Nat) = (a.length + 1) + b.length from by omega, ← List.get?_drop,
      drop_append_cons, get?_append_length]
  have hhead : headW (a ++ '-' :: (b ++ '-' :: (c3 ++ rest))) = true := by
    obtain ⟨c, t, rfl, hdc0⟩ := group_cons a 2 hla hda
    rw [List.cons_append, headW_cons]
    exact isWordChar_of_digit hdc0
  unfold ssnMatch
  rw [if_pos ?cond]
  · rfl
  case cond =>
    simp only [Bool.and_eq_true]
    refine ⟨⟨⟨⟨⟨⟨?_, ?_⟩, ?_⟩, ?_⟩, ?_⟩, ?_⟩, ?_⟩
    · unfold bdryB
      rw [hhead]
      rfl
    · exact digitsN_append 3 a _ hla hda
    · rw [hget3]
      rfl
    · rw [hdrop4]
      exact digitsN_append 2 b _ hlb hdb
    · rw [hget6]
      rfl
    · rw [hdrop7]
      exact digitsN_append 4 c3 _ hlc hdc
    · rw [hdrop11, hr]
      rfl

theorem not_rparen_of_phSep (c : Char) (h : phSep c = true) : (c == ')') = false := by
  by_contra hc
  rw [Bool.not_eq_false, beq_iff_eq] at hc
  subst hc
  exact absurd h (by decide)

theorem ccMatch_complete (w : Bool) (span : List Char) (nw : Bool) (rest : List Char)
    (hW : CcWit w span nw) (hr : headW rest = nw) :
    (ccMatch w (span ++ rest)).isSome = true := by
  obtain ⟨g1, s1, g2, s2, g3, s3, g4, rfl, hl1, hl2, hl3, hl4, hd1, hd2, hd3, hd4,
    hs1, hs2, hs3, rfl, rfl⟩ := hW
  have hl' : (g1 ++ (s1 ++ (g2 ++ (s2 ++ (g3 ++ (s3 ++ g4)))))) ++ rest
      = g1 ++ (s1 ++ (g2 ++ (s2 ++ (g3 ++ (s3 ++ (g4 ++ rest)))))) := by simp
  rw [hl']
  obtain ⟨c1x, t1x, hg1c, hc1x⟩ := group_cons g1 3 hl1 hd1
  obtain ⟨c2x, t2x, hg2c, hc2x⟩ := group_cons g2 3 hl2 hd2
  obtain ⟨c3x, t3x, hg3c, hc3x⟩ := group_cons g3 3 hl3 hd3
  obtain ⟨c4x, t4x, hg4c, hc4x⟩ := group_cons g4 3 hl4 hd4
  have hopt1 : optSep ccSep (s1 ++ (g2 ++ (s2 ++ (g3 ++ (s3 ++ (g4 ++ rest)))))) = s1.length :=
    optSep_sep_digit ccSep s1 _ hs1
      ⟨c2x, t2x ++ (s2 ++ (g3 ++ (s3 ++ (g4 ++ rest)))), by rw [hg2c]; rfl,
        by rw [not_ccSep_of_digit hc2x]⟩
  have hopt2 : optSep ccSep (s2 ++ (g3 ++ (s3 ++ (g4 ++ rest)))) = s2.length :=
    optSep_sep_digit ccSep s2 _ hs2
      ⟨c3x, t3x ++ (s3 ++ (g4 ++ rest)), by rw [hg3c]; rfl, by rw [not_ccSep_of_digit hc3x]⟩
  have hopt3 : optSep ccSep (s3 ++ (g4 ++ rest)) = s3.length :=
    optSep_sep_digit ccSep s3 _ hs3
      ⟨c4x, t4x ++ rest, by rw [hg4c]; rfl, by rw [not_ccSep_of_digit hc4x]⟩
  have hA : (g1 ++ (s1 ++ (g2 ++ (s2 ++ (g3 ++ (s3 ++ (g4 ++ rest))))))).drop 4
      = s1 ++ (g2 ++ (s2 ++ (g3 ++ (s3 ++ (g4 ++ rest))))) := by
    rw [show (4 : Nat) = g1.length from hl1.symm, List.drop_left]
  have hB : (g1 ++ (s1 ++ (g2 ++ (s2 ++ (g3 ++ (s3 ++ (g4 ++ rest))))))).drop (4 + s1.length)
      = g2 ++ (s2 ++ (g3 ++ (s3 ++ (g4 ++ rest)))) := by
    rw [← List.drop_drop, hA, List.drop_left]
  have hC : (g1 ++ (s1 ++ (g2 ++ (s2 ++ (g3 ++ (s3 ++ (g4 ++ rest))))))).drop
      (4 + s1.length + 4) = s2 ++ (g3 ++ (s3 ++ (g4 ++ rest))) := by
    rw [← List.drop_drop, hB, show (4 : Nat) = g2.length from hl2.symm, List.drop_left]
  have hD : (g1 ++ (s1 ++ (g2 ++ (s2 ++ (g3 ++ (s3 ++ (g4 ++ rest))))))).drop
      (4 + s1.length + 4 + s2.length) = g3 ++ (s3 ++ (g4 ++ rest)) := by
    rw [← List.drop_drop, hC, List.drop_left]
  have hE : (g1 ++ (s1 ++ (g2 ++ (s2 ++ (g3 ++ (s3 ++ (g4 ++ rest))))))).drop
      (4 + s1.length + 4 + s2.length + 4) = s3 ++ (g4 ++ rest) := by
    rw [← List.drop_drop, hD, show (4 : Nat) = g3.length from hl3.symm, List.drop_left]
  have hF : (g1 ++ (s1 ++ (g2 ++ (s2 ++ (g3 ++ (s3 ++ (g4 ++ rest))))))).drop
      (4 + s1.length + 4 + s2.length + 4 + s3.length) = g4 ++ rest := by
    rw [← List.drop_drop, hE, List.drop_left]
  have hG : (g1 ++ (s1 ++ (g2 ++ (s2 ++ (g3 ++ (s3 ++ (g4 ++ rest))))))).drop
      (4 + s1.length + 4 + s2.length + 4 + s3.length + 4) = rest := by
    rw [← List.drop_drop, hF, show (4 : Nat) = g4.length from hl4.symm, List.drop_left]
  have hb : bdryB false (g1 ++ (s1 ++ (g2 ++ (s2 ++ (g3 ++ (s3 ++ (g4 ++ rest))))))) = true := by
    apply bdry_of_headW
    rw [headW_append _ _ (ne_nil_of_length_eq g1 3 hl1), hg1c, headW_cons,
      isWordChar_of_digit hc1x]
    rfl
  have hD0 : digitsN 4 (g1 ++ (s1 ++ (g2 ++ (s2 ++ (g3 ++ (s3 ++ (g4 ++ rest))))))) = true :=
    digitsN_append 4 g1 _ hl1 hd1
  have hD1 : digitsN 4 (g2 ++ (s2 ++ (g3 ++ (s3 ++ (g4 ++ rest))))) = true :=
    digitsN_append 4 g2 _ hl2 hd2
  have hD2 : digitsN 4 (g3 ++ (s3 ++ (g4 ++ rest))) = true :=
    digitsN_append 4 g3 _ hl3 hd3
  have hD3 : digitsN 4 (g4 ++ rest) = true :=
    digitsN_append 4 g4 _ hl4 hd4
  simp only [ccMatch]
  rw [hA, hopt1, hB, hC, hopt2, hD, hE, hopt3, hF, hG, hb, hD0, hD1, hD2, hD3, hr]
  rfl

theorem phMatch_complete (w : Bool) (span : List Char) (nw : Bool) (rest : List Char)
    (hW : PhWit w span nw) (hr : headW rest = nw) :
    (phMatch w (span ++ rest)).isSome = true := by
  obtain ⟨pa, g1, rp, s1, g2, s2, g3, rfl, hpa, hrp, hs1, hs2, hl1, hl2, hl3,
    hd1, hd2, hd3, hlead, rfl⟩ := hW
  have hl' : (pa ++ (g1 ++ (rp ++ (s1 ++ (g2 ++ (s2 ++ g3)))))) ++ rest
      = pa ++ (g1 ++ (rp ++ (s1 ++ (g2 ++ (s2 ++ (g3 ++ rest)))))) := by simp
  rw [hl']
  obtain ⟨c1x, t1x, hg1c, hc1x⟩ := group_cons g1 2 hl1 hd1
  obtain ⟨c2x, t2x, hg2c, hc2x⟩ := group_cons g2 2 hl2 hd2
  obtain ⟨c3y, t3y, hg3c, hc3y⟩ := group_cons g3 3 hl3 hd3
  have hopt0 : optSep (fun c => c == '(')
      (pa ++ (g1 ++ (rp ++ (s1 ++ (g2 ++ (s2 ++ (g3 ++ rest))))))) = pa.length := by
    rcases hpa with rfl | rfl
    · rw [List.nil_append, hg1c, List.cons_append]
      simpa using optSep_cons_neg (fun c => c == '(') c1x
        (t1x ++ (rp ++ (s1 ++ (g2 ++ (s2 ++ (g3 ++ rest)))))) (not_lparen_of_digit hc1x)
    · simpa using optSep_cons_pos (fun c => c == '(') '(' _ (by decide)
  have hrpopt : optSep (fun c => c == ')')
      (rp ++ (s1 ++ (g2 ++ (s2 ++ (g3 ++ rest))))) = rp.length := by
    rcases hrp with rfl | rfl
    · rcases hs1 with rfl | ⟨c, rfl, hcsep⟩
      · simpa [hg2c] using
          optSep_cons_neg (fun c => c == ')') c2x (t2x ++ (s2 ++ (g3 ++ rest)))
            (not_rparen_of_digit hc2x)
      · simpa using optSep_cons_neg (fun x => x == ')') c _ (not_rparen_of_phSep c hcsep)
    · simpa using optSep_cons_pos (fun c => c == ')') ')' _ (by decide)
  have hs1opt : optSep phSep (s1 ++ (g2 ++ (s2 ++ (g3 ++ rest)))) = s1.length :=
    optSep_sep_digit phSep s1 _ hs1
      ⟨c2x, t2x ++ (s2 ++ (g3 ++ rest)), by rw [hg2c]; rfl, by rw [not_phSep_of_digit hc2x]⟩
  have hs2opt : optSep phSep (s2 ++ (g3 ++ rest)) = s2.length :=
    optSep_sep_digit phSep s2 _ hs2
      ⟨c3y, t3y ++ rest, by rw [hg3c]; rfl, by rw [not_phSep_of_digit hc3y]⟩
  have hA : (pa ++ (g1 ++ (rp ++ (s1 ++ (g2 ++ (s2 ++ (g3 ++ rest))))))).drop pa.length
      = g1 ++ (rp ++ (s1 ++ (g2 ++ (s2 ++ (g3 ++ rest))))) := List.drop_left _ _
  have hB : (pa ++ (g1 ++ (rp ++ (s1 ++ (g2 ++ (s2 ++ (g3 ++ rest))))))).drop
      (pa.length + 3) = rp ++ (s1 ++ (g2 ++ (s2 ++ (g3 ++ rest)))) := by
    rw [← List.drop_drop, hA, show (3 : Nat) = g1.length from hl1.symm, List.drop_left]
  have hC : (pa ++ (g1 ++ (rp ++ (s1 ++ (g2 ++ (s2 ++ (g3 ++ rest))))))).drop
      (pa.length + 3 + rp.length) = s1 ++ (g2 ++ (s2 ++ (g3 ++ rest))) := by
    rw [← List.drop_drop, hB, List.drop_left]
  have hD : (pa ++ (g1 ++ (rp ++ (s1 ++ (g2 ++ (s2 ++ (g3 ++ rest))))))).drop
      (pa.length + 3 + rp.length + s1.length) = g2 ++ (s2 ++ (g3 ++ rest)) := by
    rw [← List.drop_drop, hC, List.drop_left]
  have hE : (pa ++ (g1 ++ (rp ++ (s1 ++ (g2 ++ (s2 ++ (g3 ++ rest))))))).drop
      (pa.length + 3 + rp.length + s1.length + 3) = s2 ++ (g3 ++ rest) := by
    rw [← List.drop_drop, hD, show (3 : Nat) = g2.length from hl2.symm, List.drop_left]
  have hF : (pa ++ (g1 ++ (rp ++ (s1 ++ (g2 ++ (s2 ++ (g3 ++ rest))))))).drop
      (pa.length + 3 + rp.length + s1.length + 3 + s2.length) = g3 ++ rest := by
    rw [← List.drop_drop, hE, List.drop_left]
  have hG : (pa ++ (g1 ++ (rp ++ (s1 ++ (g2 ++ (s2 ++ (g3 ++ rest))))))).drop
      (pa.length + 3 + rp.length + s1.length + 3 + s2.length + 4) = rest := by
    rw [← List.drop_drop, hF, show (4 : Nat) = g3.length from hl3.symm, List.drop_left]
  have hb : bdryB w (pa ++ (g1 ++ (rp ++ (s1 ++ (g2 ++ (s2 ++ (g3 ++ rest))))))) = true := by
    apply bdry_of_headW
    rcases hpa with rfl | rfl
    · rw [List.nil_append] at hlead ⊢
      rw [headW_append _ _ (ne_nil_of_length_eq g1 2 hl1)] at hlead ⊢
      exact hlead
    · rw [List.singleton_append] at hlead ⊢
      rw [headW_cons] at hlead ⊢
      exact hlead
  have hD1 : digitsN 3 (g1 ++ (rp ++ (s1 ++ (g2 ++ (s2 ++ (g3 ++ rest)))))) = true :=
    digitsN_append 3 g1 _ hl1 hd1
  have hD2 : digitsN 3 (g2 ++ (s2 ++ (g3 ++ rest))) = true :=
    digitsN_append 3 g2 _ hl2 hd2
  have hD3 : digitsN 4 (g3 ++ rest) = true :=
    digitsN_append 4 g3 _ hl3 hd3
  simp only [phMatch]
  rw [hopt0, hA, hB, hrpopt, hC, hs1opt, hD, hE, hs2opt, hF, hG, hb, hD1, hD2, hD3, hr]
  rfl

theorem emMatch_complete (w : Bool) (span : List Char) (nw : Bool) (rest : List Char)
    (hW : EmWit w span nw) (hr : headW rest = nw) :
    (emMatch w (span ++ rest)).isSome = true := by
  obtain ⟨lo, dom, tld, rfl, hlone, hlom, hdomne, hdomm, htldlen, htldm, hlead, htrail⟩ := hW
  have hl' : (lo ++ '@' :: (dom ++ '.' :: tld)) ++ rest
      = lo ++ '@' :: (dom ++ '.' :: (tld ++ rest)) := by simp
  rw [hl']
  have htldne : tld ≠ [] := by
    intro h
    rw [h] at htldlen
    simp at htldlen
  have hrun : run localCls (lo ++ '@' :: (dom ++ '.' :: (tld ++ rest))) = lo.length :=
    run_append_stop localCls lo '@' _ hlom (by decide)
  have hb : bdryB w (lo ++ '@' :: (dom ++ '.' :: (tld ++ rest))) = true := by
    apply bdry_of_headW
    rw [headW_append _ _ hlone]
    rw [headW_append _ _ hlone] at hlead
    exact hlead
  have hget : (lo ++ '@' :: (dom ++ '.' :: (tld ++ rest))).get? lo.length = some '@' :=
    get?_append_length _ _ _
  have hdrop1 : (lo ++ '@' :: (dom ++ '.' :: (tld ++ rest))).drop (lo.length + 1)
      = dom ++ '.' :: (tld ++ rest) := drop_append_cons _ _ _
  have hdrop2 : (dom ++ '.' :: (tld ++ rest)).drop (dom.length + 1) = tld ++ rest :=
    drop_append_cons _ _ _
  have hlastW : lastW tld = !nw := by
    rw [← htrail, lastW_append _ _ (by simp), lastW_cons_ne _ _ (by simp),
      lastW_append _ _ (by simp), lastW_cons_ne _ _ htldne]
  have hwAt : wordAtIdx (tld ++ rest) (tld.length - 1) = !nw := by
    unfold wordAtIdx
    rw [List.get?_append (by omega)]
    rw [lastW_eq_wordAtIdx] at hlastW
    unfold wordAtIdx at hlastW
    exact hlastW
  have htt : (emTryT (tld ++ rest) (run tldCls (tld ++ rest))).isSome = true := by
    apply emTryT_complete (tld ++ rest) (run tldCls (tld ++ rest)) tld.length htldlen
      (run_ge_front tldCls tld rest htldm)
    rw [hwAt, List.drop_left, hr]
    cases nw <;> rfl
  have hd : (emTryD (dom ++ '.' :: (tld ++ rest))
      (run domCls (dom ++ '.' :: (tld ++ rest)))).isSome = true := by
    apply emTryD_complete _ _ dom.length (List.length_pos.mpr hdomne)
      (run_ge_front domCls dom _ hdomm) (get?_append_length _ _ _)
    rw [hdrop2]
    exact htt
  obtain ⟨r, hr2⟩ := Option.isSome_iff_exists.mp hd
  have h0 : (lo.length == 0) = false := by
    cases lo with
    | nil => exact absurd rfl hlone
    | cons c t => rfl
  simp only [emMatch]
  rw [hrun, hb, hget, hdrop1, hr2, h0]
  rfl

/-! ### Span facts: a match span ends in a word character and contains no tag
character, and a matcher fails on empty input, at a non-boundary, and at a
non-matching first character -/

theorem lastW_of_all_word (g : List Char) (hg : g ≠ []) (hall : ∀ x ∈ g, isWordChar x = true) :
    lastW g = true := by
  unfold lastW
  cases hlast : g.getLast? with
  | none => exact absurd (List.getLast?_eq_none_iff.mp hlast) hg
  | some y =>
    obtain ⟨hne, heq⟩ := List.mem_getLast?_eq_getLast (show y ∈ g.getLast? from hlast)
    exact hall y (by rw [heq]; exact List.getLast_mem hne)

theorem cls_no_lt (p : Char → Bool) (g : List Char) (hp : p '<' = false)
    (hd : ∀ x ∈ g, p x = true) : '<' ∉ g := by
  intro hm
  have := hd _ hm
  rw [hp] at this
  simp at this

theorem sep_no_lt (p : Char → Bool) (s : List Char) (hp : p '<' = false)
    (hs : s = [] ∨ ∃ c, s = [c] ∧ p c = true) : '<' ∉ s := by
  rcases hs with rfl | ⟨c, rfl, hc⟩
  · simp
  · intro hm
    rw [List.mem_singleton] at hm
    subst hm
    rw [hp] at hc
    simp at hc

theorem paren_no_lt (s : List Char) (c0 : Char) (hc0 : ('<' : Char) ≠ c0)
    (hs : s = [] ∨ s = [c0]) : '<' ∉ s := by
  rcases hs with rfl | rfl
  · simp
  · simp [hc0]

theorem ssnWit_no_lt (w : Bool) (span : List Char) (nw : Bool) (h : SsnWit w span nw) :
    '<' ∉ span := by
  obtain ⟨a, b, c3, rfl, hla, hlb, hlc, hda, hdb, hdc, rfl, rfl⟩ := h
  intro hmem
  rcases List.mem_append.mp hmem with h1 | h1
  · exact cls_no_lt isDigit a (by decide) hda h1
  · rcases List.mem_cons.mp h1 with heq | h2
    · exact absurd heq (by decide)
    · rcases List.mem_append.mp h2 with h3 | h3
      · exact cls_no_lt isDigit b (by decide) hdb h3
      · rcases List.mem_cons.mp h3 with heq | h4
        · exact absurd heq (by decide)
        · exact cls_no_lt isDigit c3 (by decide) hdc h4

theorem ccWit_no_lt (w : Bool) (span : List Char) (nw : Bool) (h : CcWit w span nw) :
    '<' ∉ span := by
  obtain ⟨g1, s1, g2, s2, g3, s3, g4, rfl, hl1, hl2, hl3, hl4, hd1, hd2, hd3, hd4,
    hs1, hs2, hs3, rfl, rfl⟩ := h
  intro hmem
  rcases List.mem_append.mp hmem with h1 | h1
  · exact cls_no_lt isDigit g1 (by decide) hd1 h1
  · rcases List.mem_append.mp h1 with h2 | h2
    · exact sep_no_lt ccSep s1 (by decide) hs1 h2
    · rcases List.mem_append.mp h2 with h3 | h3
      · exact cls_no_lt isDigit g2 (by decide) hd2 h3
      · rcases List.mem_append.mp h3 with h4 | h4
        · exact sep_no_lt ccSep s2 (by decide) hs2 h4
        · rcases List.mem_append.mp h4 with h5 | h5
          · exact cls_no_lt isDigit g3 (by decide) hd3 h5
          · rcases List.mem_append.mp h5 with h6 | h6
            · exact sep_no_lt ccSep s3 (by decide) hs3 h6
            · exact cls_no_lt isDigit g4 (by decide) hd4 h6

theorem phWit_no_lt (w : Bool) (span : List Char) (nw : Bool) (h : PhWit w span nw) :
    '<' ∉ span := by
  obtain ⟨pa, g1, rp, s1, g2, s2, g3, rfl, hpa, hrp, hs1, hs2, hl1, hl2, hl3,
    hd1, hd2, hd3, hlead, rfl⟩ := h
  intro hmem
  rcases List.mem_append.mp hmem with h1 | h1
  · exact paren_no_lt pa '(' (by decide) hpa h1
  · rcases List.mem_append.mp h1 with h2 | h2
    · exact cls_no_lt isDigit g1 (by decide) hd1 h2
    · rcases List.mem_append.mp h2 with h3 | h3
      · exact paren_no_lt rp ')' (by decide) hrp h3
      · rcases List.mem_append.mp h3 with h4 | h4
        · exact sep_no_lt phSep s1 (by decide) hs1 h4
        · rcases List.mem_append.mp h4 with h5 | h5
          · exact cls_no_lt isDigit g2 (by decide) hd2 h5
          · rcases List.mem_append.mp h5 with h6 | h6
            · exact sep_no_lt phSep s2 (by decide) hs2 h6
            · exact cls_no_lt isDigit g3 (by decide) hd3 h6

theorem emWit_no_lt (w : Bool) (span : List Char) (nw : Bool) (h : EmWit w span nw) :
    '<' ∉ span := by
  obtain ⟨lo, dom, tld, rfl, hlone, hlom, hdomne, hdomm, htldlen, htldm, hlead, htrail⟩ := h
  intro hmem
  rcases List.mem_append.mp hmem with h1 | h1
  · exact cls_no_lt localCls lo (by decide) hlom h1
  · rcases List.mem_cons.mp h1 with heq | h2
    · exact absurd heq (by decide)
    · rcases List.mem_append.mp h2 with h3 | h3
      · exact cls_no_lt domCls dom (by decide) hdomm h3
      · rcases List.mem_cons.mp h3 with heq | h4
        · exact absurd heq (by decide)
        · exact cls_no_lt tldCls tld (by decide) htldm h4

theorem ssnWit_lastW (w : Bool) (span : List Char) (nw : Bool) (h : SsnWit w span nw) :
    lastW span = true := by
  obtain ⟨a, b, c3, rfl, hla, hlb, hlc, hda, hdb, hdc, rfl, rfl⟩ := h
  have hc3 : c3 ≠ [] := ne_nil_of_length_eq c3 3 hlc
  have h3 : ('-' :: c3 : List Char) ≠ [] := by simp
  have h2 : b ++ '-' :: c3 ≠ [] := fun hh => h3 (List.append_eq_nil.mp hh).2
  have h1 : ('-' :: (b ++ '-' :: c3) : List Char) ≠ [] := by simp
  rw [lastW_append _ _ h1, lastW_cons_ne _ _ h2, lastW_append _ _ h3, lastW_cons_ne _ _ hc3]
  exact lastW_of_all_word c3 hc3 fun x hx => isWordChar_of_digit (hdc x hx)

theorem ccWit_lastW (w : Bool) (span : List Char) (nw : Bool) (h : CcWit w span nw) :
    lastW span = true := by
  obtain ⟨g1, s1, g2, s2, g3, s3, g4, rfl, hl1, hl2, hl3, hl4, hd1, hd2, hd3, hd4,
    hs1, hs2, hs3, rfl, rfl⟩ := h
  have hg4 : g4 ≠ [] := ne_nil_of_length_eq g4 3 hl4
  have h6 : s3 ++ g4 ≠ [] := fun hh => hg4 (List.append_eq_nil.mp hh).2
  have h5 : g3 ++ (s3 ++ g4) ≠ [] := fun hh => h6 (List.append_eq_nil.mp hh).2
  have h4 : s2 ++ (g3 ++ (s3 ++ g4)) ≠ [] := fun hh => h5 (List.append_eq_nil.mp hh).2
  have h3 : g2 ++ (s2 ++ (g3 ++ (s3 ++ g4))) ≠ [] := fun hh => h4 (List.append_eq_nil.mp hh).2
  have h2 : s1 ++ (g2 ++ (s2 ++ (g3 ++ (s3 ++ g4)))) ≠ [] :=
    fun hh => h3 (List.append_eq_nil.mp hh).2
  rw [lastW_append _ _ h2, lastW_append _ _ h3, lastW_append _ _ h4, lastW_append _ _ h5,
    lastW_append _ _ h6, lastW_append _ _ hg4]
  exact lastW_of_all_word g4 hg4 fun x hx => isWordChar_of_digit (hd4 x hx)

theorem phWit_lastW (w : Bool) (span : List Char) (nw : Bool) (h : PhWit w span nw) :
    lastW span = true := by
  obtain ⟨pa, g1, rp, s1, g2, s2, g3, rfl, hpa, hrp, hs1, hs2, hl1, hl2, hl3,
    hd1, hd2, hd3, hlead, rfl⟩ := h
  have hg3 : g3 ≠ [] := ne_nil_of_length_eq g3 3 hl3
  have h6 : s2 ++ g3 ≠ [] := fun hh => hg3 (List.append_eq_nil.mp hh).2
  have h5 : g2 ++ (s2 ++ g3) ≠ [] := fun hh => h6 (List.append_eq_nil.mp hh).2
  have h4 : s1 ++ (g2 ++ (s2 ++ g3)) ≠ [] := fun hh => h5 (List.append_eq_nil.mp hh).2
  have h3 : rp ++ (s1 ++ (g2 ++ (s2 ++ g3))) ≠ [] := fun hh => h4 (List.append_eq_nil.mp hh).2
  have h2 : g1 ++ (rp ++ (s1 ++ (g2 ++ (s2 ++ g3)))) ≠ [] :=
    fun hh => h3 (List.append_eq_nil.mp hh).2
  rw [lastW_append _ _ h2, lastW_append _ _ h3, lastW_append _ _ h4, lastW_append _ _ h5,
    lastW_append _ _ h6, lastW_append _ _ hg3]
  exact lastW_of_all_word g3 hg3 fun x hx => isWordChar_of_digit (hd3 x hx)

theorem emWit_lastW (w : Bool) (span : List Char) (nw : Bool) (h : EmWit w span nw)
    (hnw : nw = false) : lastW span = true := by
  obtain ⟨lo, dom, tld, rfl, hlone, hlom, hdomne, hdomm, htldlen, htldm, hlead, htrail⟩ := h
  rw [htrail, hnw]
  rfl

theorem ssnMatch_none_nil (w : Bool) : ssnMatch w [] = none := by
  cases w <;> rfl

theorem ccMatch_none_nil (w : Bool) : ccMatch w [] = none := by
  cases w <;> rfl

theorem phMatch_none_nil (w : Bool) : phMatch w [] = none := by
  cases w <;> rfl

theorem emMatch_none_nil (w : Bool) : emMatch w [] = none := by
  cases w <;> rfl

theorem ssnMatch_none_nobdry (w : Bool) (l : List Char) (h : headW l = w) :
    ssnMatch w l = none := by
  have hb : bdryB w l = false := by
    unfold bdryB
    rw [h]
    simp
  unfold ssnMatch
  rw [hb]
  rfl

theorem ccMatch_none_nobdry (w : Bool) (l : List Char) (h : headW l = w) :
    ccMatch w l = none := by
  have hb : bdryB w l = false := by
    unfold bdryB
    rw [h]
    simp
  simp only [ccMatch]
  rw [if_pos (by rw [hb]; rfl)]

theorem phMatch_none_nobdry (w : Bool) (l : List Char) (h : headW l = w) :
    phMatch w l = none := by
  have hb : bdryB w l = false := by
    unfold bdryB
    rw [h]
    simp
  simp only [phMatch]
  rw [if_pos (by rw [hb]; rfl)]

theorem emMatch_none_nobdry (w : Bool) (l : List Char) (h : headW l = w) :
    emMatch w l = none := by
  have hb : bdryB w l = false := by
    unfold bdryB
    rw [h]
    simp
  simp only [emMatch]
  rw [if_pos (by rw [hb]; rfl)]

theorem ssnMatch_none_nondigit (w : Bool) (c : Char) (out : List Char)
    (hc : isDigit c = false) : ssnMatch w (c :: out) = none := by
  have h3 : digitsN 3 (c :: out) = false := by
    rw [show digitsN 3 (c :: out) = (isDigit c && digitsN 2 out) from rfl, hc]
    rfl
  unfold ssnMatch
  simp [h3]

theorem ccMatch_none_nondigit (w : Bool) (c : Char) (out : List Char)
    (hc : isDigit c = false) : ccMatch w (c :: out) = none := by
  have h4 : digitsN 4 (c :: out) = false := by
    rw [show digitsN 4 (c :: out) = (isDigit c && digitsN 3 out) from rfl, hc]
    rfl
  simp only [ccMatch]
  split
  · rfl
  · rw [if_pos (by rw [h4]; rfl)]

theorem phMatch_none_badfirst (w : Bool) (c : Char) (out : List Char)
    (hcd : isDigit c = false) (hcp : (c == '(') = false) : phMatch w (c :: out) = none := by
  have h3 : digitsN 3 (c :: out) = false := by
    rw [show digitsN 3 (c :: out) = (isDigit c && digitsN 2 out) from rfl, hcd]
    rfl
  simp only [phMatch]
  rw [optSep_cons_neg (fun x => x == '(') c out hcp]
  split
  · rfl
  · rw [if_pos (by rw [List.drop_zero, h3]; rfl)]

theorem emMatch_none_notlocal (w : Bool) (c : Char) (out : List Char)
    (hc : localCls c = false) : emMatch w (c :: out) = none := by
  have hr : run localCls (c :: out) = 0 := by
    rw [show run localCls (c :: out)
        = (if localCls c then run localCls out + 1 else 0) from rfl, hc]
    rfl
  simp only [emMatch]
  rw [hr]
  split
  · rfl
  · rw [if_pos (show ((0 : Nat) == 0) = true from rfl)]

theorem emMatch_none_gtTail (w : Bool) (mid out : List Char)
    (hmid : ∀ c ∈ mid, localCls c = true) :
    emMatch w (mid ++ '>' :: out) = none := by
  simp only [emMatch]
  rw [run_append_stop localCls mid '>' out hmid (by decide)]
  split
  · rfl
  · cases mid with
    | nil => rw [if_pos (show (List.length ([] : List Char) == 0) = true from rfl)]
    | cons c0 t0 =>
      rw [if_neg (by simp), get?_append_length, if_pos (by decide)]

theorem ssnMatch_transport (w : Bool) (b rest' : List Char) (n : Nat)
    (hm : ssnMatch w b = some n) (hpre : b.take n = rest'.take n)
    (hnw : headW (rest'.drop n) = headW (b.drop n)) :
    (ssnMatch w rest').isSome = true := by
  have hwit := ssnMatch_sound w b n hm
  rw [hpre] at hwit
  have hres := ssnMatch_complete w (rest'.take n) (headW (b.drop n)) (rest'.drop n) hwit hnw
  rw [List.take_append_drop] at hres
  exact hres

theorem ccMatch_transport (w : Bool) (b rest' : List Char) (n : Nat)
    (hm : ccMatch w b = some n) (hpre : b.take n = rest'.take n)
    (hnw : headW (rest'.drop n) = headW (b.drop n)) :
    (ccMatch w rest').isSome = true := by
  have hwit := ccMatch_sound w b n hm
  rw [hpre] at hwit
  have hres := ccMatch_complete w (rest'.take n) (headW (b.drop n)) (rest'.drop n) hwit hnw
  rw [List.take_append_drop] at hres
  exact hres

theorem phMatch_transport (w : Bool) (b rest' : List Char) (n : Nat)
    (hm : phMatch w b = some n) (hpre : b.take n = rest'.take n)
    (hnw : headW (rest'.drop n) = headW (b.drop n)) :
    (phMatch w rest').isSome = true := by
  have hwit := phMatch_sound w b n hm
  rw [hpre] at hwit
  have hres := phMatch_complete w (rest'.take n) (headW (b.drop n)) (rest'.drop n) hwit hnw
  rw [List.take_append_drop] at hres
  exact hres

theorem emMatch_transport (w : Bool) (b rest' : List Char) (n : Nat)
    (hm : emMatch w b = some n) (hpre : b.take n = rest'.take n)
    (hnw : headW (rest'.drop n) = headW (b.drop n)) :
    (emMatch w rest').isSome = true := by
  have hwit := emMatch_sound w b n hm
  rw [hpre] at hwit
  have hres := emMatch_complete w (rest'.take n) (headW (b.drop n)) (rest'.drop n) hwit hnw
  rw [List.take_append_drop] at hres
  exact hres

theorem ssnMatch_no_lt (w : Bool) (l : List Char) (n : Nat) (h : ssnMatch w l = some n) :
    '<' ∉ l.take n :=
  ssnWit_no_lt _ _ _ (ssnMatch_sound w l n h)

theorem ccMatch_no_lt (w : Bool) (l : List Char) (n : Nat) (h : ccMatch w l = some n) :
    '<' ∉ l.take n :=
  ccWit_no_lt _ _ _ (ccMatch_sound w l n h)

theorem phMatch_no_lt (w : Bool) (l : List Char) (n : Nat) (h : phMatch w l = some n) :
    '<' ∉ l.take n :=
  phWit_no_lt _ _ _ (phMatch_sound w l n h)

theorem emMatch_no_lt (w : Bool) (l : List Char) (n : Nat) (h : emMatch w l = some n) :
    '<' ∉ l.take n :=
  emWit_no_lt _ _ _ (emMatch_sound w l n h)

theorem ssnMatch_last_word (w : Bool) (l : List Char) (n : Nat) (h : ssnMatch w l = some n)
    (hf : headW (l.drop n) = false) : lastW (l.take n) = true :=
  ssnWit_lastW _ _ _ (ssnMatch_sound w l n h)

theorem ccMatch_last_word (w : Bool) (l : List Char) (n : Nat) (h : ccMatch w l = some n)
    (hf : headW (l.drop n) = false) : lastW (l.take n) = true :=
  ccWit_lastW _ _ _ (ccMatch_sound w l n h)

theorem phMatch_last_word (w : Bool) (l : List Char) (n : Nat) (h : phMatch w l = some n)
    (hf : headW (l.drop n) = false) : lastW (l.take n) = true :=
  phWit_lastW _ _ _ (phMatch_sound w l n h)

theorem emMatch_last_word (w : Bool) (l : List Char) (n : Nat) (h : emMatch w l = some n)
    (hf : headW (l.drop n) = false) : lastW (l.take n) = true :=
  emWit_lastW _ _ _ (emMatch_sound w l n h) hf

theorem ssnMatch_start_bdry (w : Bool) (l : List Char) (n : Nat)
    (h : ssnMatch w l = some n) : headW l = !w := by
  obtain ⟨hb, _⟩ := ssnMatch_inv w l n h
  exact bdry_headW hb

theorem ccMatch_start_bdry (w : Bool) (l : List Char) (n : Nat)
    (h : ccMatch w l = some n) : headW l = !w := by
  obtain ⟨i1, i2, i3, _, _, _, hb, _⟩ := ccMatch_inv w l n h
  exact bdry_headW hb

theorem phMatch_start_bdry (w : Bool) (l : List Char) (n : Nat)
    (h : phMatch w l = some n) : headW l = !w := by
  obtain ⟨i0, i1, i2, i3, _, _, _, _, hb, _⟩ := phMatch_inv w l n h
  exact bdry_headW hb

theorem emMatch_start_bdry (w : Bool) (l : List Char) (n : Nat)
    (h : emMatch w l = some n) : headW l = !w := by
  obtain ⟨hb, _⟩ := emMatch_inv w l n h
  exact bdry_headW hb

theorem ssnMatch_end_bdry (w : Bool) (l : List Char) (n : Nat)
    (h : ssnMatch w l = some n) (hw : wordAtIdx l (n - 1) = true) :
    headW (l.drop n) = false := by
  obtain ⟨_, _, _, _, _, _, hW, rfl⟩ := ssnMatch_inv w l n h
  exact hW

theorem ccMatch_end_bdry (w : Bool) (l : List Char) (n : Nat)
    (h : ccMatch w l = some n) (hw : wordAtIdx l (n - 1) = true) :
    headW (l.drop n) = false := by
  obtain ⟨i1, i2, i3, e1, e2, e3, _, _, _, _, _, hW, rfl⟩ := ccMatch_inv w l n h
  exact hW

theorem phMatch_end_bdry (w : Bool) (l : List Char) (n : Nat)
    (h : phMatch w l = some n) (hw : wordAtIdx l (n - 1) = true) :
    headW (l.drop n) = false := by
  obtain ⟨i0, i1, i2, i3, e0, e1, e2, e3, _, _, _, _, hW, rfl⟩ := phMatch_inv w l n h
  exact hW

theorem emMatch_end_bdry (w : Bool) (l : List Char) (n : Nat)
    (h : emMatch w l = some n) (hw : wordAtIdx l (n - 1) = true) :
    headW (l.drop n) = false := by
  have hwit := emMatch_sound w l n h
  obtain ⟨hp1, hple⟩ := emMatch_pos w l n h
  obtain ⟨lo, dom, tld, hsp, h1, h2, h3, h4, h5, h6, h7, htrail⟩ := hwit
  have hlast : lastW (l.take n) = !(headW (l.drop n)) := htrail
  rw [lastW_take l n hp1 hple] at hlast
  cases hh : headW (l.drop n) with
  | false => rfl
  | true =>
    rw [hw, hh] at hlast
    simp at hlast

/-! ### The scan relation: computed scans satisfy it, match-free texts are
fixed points, and a prefix of the output mirrors a prefix of the input up to
the first emitted tag -/

theorem wAfter_take (w : Bool) (l : List Char) (n : Nat) (h1 : 1 ≤ n) (h2 : n ≤ l.length) :
    wAfter w (l.take n) = wordAtIdx l (n - 1) := by
  have hlen : (l.take n).length = n := by
    rw [List.length_take]
    omega
  have hne : l.take n ≠ [] := by
    intro hh
    rw [hh] at hlen
    simp at hlen
    omega
  rw [wAfter_of_ne_nil _ _ hne, lastW_take l n h1 h2]

theorem NoM_cons {m : Bool → List Char → Option Nat} {w : Bool} {c : Char} {rest : List Char}
    (h : NoM m w (c :: rest)) : NoM m (isWordChar c) rest := by
  intro a b hab
  have hx := h (c :: a) b (by rw [hab, List.cons_append])
  rw [wAfter_cons] at hx
  exact hx

theorem NoM_drop {m : Bool → List Char → Option Nat} {w : Bool} {l : List Char}
    (h : NoM m w l) (n : Nat) (h1 : 1 ≤ n) (h2 : n ≤ l.length) :
    NoM m (wordAtIdx l (n - 1)) (l.drop n) := by
  intro a b hab
  have hx := h (l.take n ++ a) b (by rw [List.append_assoc, ← hab, List.take_append_drop])
  rw [wAfter_append, wAfter_take w l n h1 h2] at hx
  exact hx

theorem scanAux_rel (m : Bool → List Char → Option Nat) (tag : List Char)
    (hpos : ∀ w l k, m w l = some k → 1 ≤ k ∧ k ≤ l.length) :
    ∀ fuel w l, l.length ≤ fuel → ScanRel m tag w l (scanAux m tag fuel w l)
  | 0, w, l, hf => by
    have hnil : l = [] := by
      cases l with
      | nil => rfl
      | cons c rest => simp at hf
    subst hnil
    exact ScanRel.nil w
  | f + 1, w, l, hf => by
    cases l with
    | nil => exact ScanRel.nil w
    | cons c rest =>
      cases hm : m w (c :: rest) with
      | none =>
        rw [scanAux, hm]
        exact ScanRel.skip w c rest _ hm
          (scanAux_rel m tag hpos f (isWordChar c) rest
            (by rw [List.length_cons] at hf; omega))
      | some n =>
        rw [scanAux, hm]
        obtain ⟨hn1, hnle⟩ := hpos w (c :: rest) n hm
        exact ScanRel.matched w (c :: rest) _ n hm hn1 hnle
          (scanAux_rel m tag hpos f (wordAtIdx (c :: rest) (n - 1)) (List.drop n (c :: rest))
            (by rw [List.length_drop]; rw [List.length_cons] at hf ⊢; omega))

theorem noM_scanAux_id (m : Bool → List Char → Option Nat) (tag : List Char) :
    ∀ fuel w l, l.length ≤ fuel → NoM m w l → scanAux m tag fuel w l = l
  | 0, w, l, hf, _ => by
    have hnil : l = [] := by
      cases l with
      | nil => rfl
      | cons c rest => simp at hf
    subst hnil
    rfl
  | f + 1, w, l, hf, hnom => by
    cases l with
    | nil => rfl
    | cons c rest =>
      have hm : m w (c :: rest) = none := by
        have hx := hnom [] (c :: rest) rfl
        rwa [wAfter_nil] at hx
      rw [scanAux, hm]
      show c :: scanAux m tag f (isWordChar c) rest = c :: rest
      rw [noM_scanAux_id m tag f (isWordChar c) rest
        (by rw [List.length_cons] at hf; omega) (NoM_cons hnom)]

theorem noM_subst_id (m : Bool → List Char → Option Nat) (tag : List Char) (l : List Char)
    (h : NoM m false l) : subst m tag l = l :=
  noM_scanAux_id m tag l.length false l (Nat.le_refl _) h

theorem scan_front (ms : Bool → List Char → Option Nat) (tag : List Char)
    (hbd : ∀ w l k, ms w l = some k → headW l = !w)
    (htag : ∃ ttl, tag = '<' :: ttl) :
    ∀ wS l out, ScanRel ms tag wS l out →
    ∀ n, ('<' ∈ out.take n) ∨
      (out.take n = l.take n ∧
        (headW (out.drop n) = headW (l.drop n) ∨
          (headW (out.drop n) = false ∧ headW (l.drop n) = !(wAfter wS (l.take n))))) := by
  intro wS l out hscan
  induction hscan with
  | nil w =>
    intro n
    right
    exact ⟨rfl, Or.inl rfl⟩
  | skip w c rest out' hnone hsub ih =>
    intro n
    cases n with
    | zero =>
      right
      exact ⟨rfl, Or.inl rfl⟩
    | succ k =>
      rcases ih k with hin | ⟨hpre, hdisj⟩
      · left
        rw [List.take_succ_cons]
        exact List.mem_cons_of_mem c hin
      · right
        constructor
        · rw [List.take_succ_cons, List.take_succ_cons, hpre]
        · rcases hdisj with heq | ⟨hof, hlf⟩
          · exact Or.inl heq
          · refine Or.inr ⟨hof, ?_⟩
            rw [List.take_succ_cons, wAfter_cons]
            exact hlf
  | matched w l0 out'' n0 hm0 hn1 hnle hsub ih =>
    intro n
    cases n with
    | zero =>
      right
      refine ⟨rfl, ?_⟩
      right
      obtain ⟨ttl, rfl⟩ := htag
      exact ⟨rfl, hbd w l0 n0 hm0⟩
    | succ k =>
      left
      obtain ⟨ttl, rfl⟩ := htag
      rw [List.cons_append, List.take_succ_cons]
      exact List.mem_cons_self _ _

theorem scan_noM
    (m ms : Bool → List Char → Option Nat) (tag : List Char)
    (hmnil : ∀ w, m w [] = none)
    (hmbdk : ∀ w l, headW l = w → m w l = none)
    (hmtag0 : ∀ w out2, m w (tag ++ out2) = none)
    (hmtagj : ∀ j, 1 ≤ j → j < tag.length → ∀ w out2, m w (tag.drop j ++ out2) = none)
    (htr : ∀ w b rest' n, m w b = some n → b.take n = rest'.take n →
        headW (rest'.drop n) = headW (b.drop n) → (m w rest').isSome = true)
    (hlt : ∀ w l n, m w l = some n → '<' ∉ l.take n)
    (hlw : ∀ w l n, m w l = some n → headW (l.drop n) = false → lastW (l.take n) = true)
    (hpos : ∀ w l k, m w l = some k → 1 ≤ k)
    (hbd : ∀ w l k, ms w l = some k → headW l = !w)
    (hmsend : ∀ w l k, ms w l = some k → wordAtIdx l (k - 1) = true →
        headW (l.drop k) = false)
    (htag : ∃ ttl, tag = '<' :: ttl)
    (htw : ∀ w, wAfter w tag = false) :
    ∀ wS l out, ScanRel ms tag wS l out →
      ((∀ w l', m w l' = ms w l') ∨ NoM m wS l) →
      ∀ wX, WordRel wX wS l → NoM m wX out := by
  intro wS l out hscan
  induction hscan with
  | nil w =>
    intro hside wX hwr a b hab
    obtain ⟨ha, hb⟩ := List.append_eq_nil.mp hab.symm
    subst ha
    subst hb
    rw [wAfter_nil]
    exact hmnil wX
  | skip w c rest out' hnone hsub ih =>
    intro hside wX hwr a b hab
    cases a with
    | nil =>
      rw [List.nil_append] at hab
      subst hab
      rw [wAfter_nil]
      cases hm2 : m wX (c :: out') with
      | none => rfl
      | some n =>
        exfalso
        rcases hwr with heqw | ⟨hwx, hws, hhw⟩
        · subst heqw
          have hfull : ScanRel ms tag wX (c :: rest) (c :: out') :=
            ScanRel.skip wX c rest out' hnone hsub
          rcases scan_front ms tag hbd htag wX (c :: rest) (c :: out') hfull n with
            hin | ⟨hpre, hdisj⟩
          · exact hlt wX _ n hm2 hin
          · have hnw : headW ((c :: rest).drop n) = headW ((c :: out').drop n) := by
              rcases hdisj with heq | ⟨hof, hlf⟩
              · exact heq.symm
              · have hn1 : 1 ≤ n := hpos wX _ n hm2
                have htke : (c :: rest).take n ≠ [] := by
                  cases n with
                  | zero => omega
                  | succ k =>
                    rw [List.take_succ_cons]
                    simp
                rw [hof, hlf, wAfter_of_ne_nil _ _ htke, ← hpre, hlw wX _ n hm2 hof]
                rfl
            have hisome := htr wX (c :: out') (c :: rest) n hm2 hpre hnw
            rcases hside with hall | hnom
            · rw [hall, hnone] at hisome
              simp at hisome
            · have hz := hnom [] (c :: rest) rfl
              rw [wAfter_nil] at hz
              rw [hz] at hisome
              simp at hisome
        · have hcw : headW (c :: out') = wX := by
            rw [headW_cons] at hhw ⊢
            rw [hwx]
            exact hhw
          rw [hmbdk wX (c :: out') hcw] at hm2
          exact Option.noConfusion hm2
    | cons c' a' =>
      rw [List.cons_append] at hab
      injection hab with h1 h2
      subst h1
      rw [wAfter_cons]
      have hside' : (∀ w' l', m w' l' = ms w' l') ∨ NoM m (isWordChar c) rest := by
        rcases hside with hall | hnom
        · exact Or.inl hall
        · exact Or.inr (NoM_cons hnom)
      exact ih hside' (isWordChar c) (Or.inl rfl) a' b h2
  | matched w l0 out'' n0 hm0 hn1 hnle hsub ih =>
    intro hside wX hwr a b hab
    have hside' : (∀ w' l', m w' l' = ms w' l') ∨
        NoM m (wordAtIdx l0 (n0 - 1)) (l0.drop n0) := by
      rcases hside with hall | hnom
      · exact Or.inl hall
      · exact Or.inr (NoM_drop hnom n0 hn1 hnle)
    have hwr' : WordRel false (wordAtIdx l0 (n0 - 1)) (l0.drop n0) := by
      cases hwi : wordAtIdx l0 (n0 - 1) with
      | false => exact Or.inl rfl
      | true => exact Or.inr ⟨rfl, rfl, hmsend w l0 n0 hm0 hwi⟩
    have hnomout : NoM m false out'' := ih hside' false hwr'
    rcases List.append_eq_append_iff.mp hab with ⟨x, hax, hox⟩ | ⟨y, hty, hby⟩
    · subst hax
      rw [wAfter_append, htw wX]
      exact hnomout x b hox
    · cases y with
      | nil =>
        rw [List.append_nil] at hty
        rw [List.nil_append] at hby
        rw [hby, ← hty, htw wX]
        exact hnomout [] out'' rfl
      | cons y0 ytl =>
        cases a with
        | nil =>
          rw [List.nil_append] at hty
          rw [wAfter_nil, hby, ← hty]
          exact hmtag0 wX out''
        | cons a0 atl =>
          have hlen : (a0 :: atl).length < tag.length := by
            rw [hty, List.length_append]
            simp
          have hdropj : tag.drop (a0 :: atl).length = y0 :: ytl := by
            rw [hty, List.drop_left]
          rw [hby, ← hdropj]
          exact hmtagj (a0 :: atl).length (by simp) hlen (wAfter wX (a0 :: atl)) out''

/-! ### No matcher matches at any position inside an emitted tag -/

theorem ssnMatch_none_tagpos (tg : List Char) (hdg : ∀ c ∈ tg, isDigit c = false)
    (j : Nat) (hj : j < tg.length) (w : Bool) (out : List Char) :
    ssnMatch w (tg.drop j ++ out) = none := by
  have hget : tg.get? j = some (tg.get ⟨j, hj⟩) := List.get?_eq_get hj
  have hdc := drop_eq_cons_of_get? tg j _ hget
  rw [hdc, List.cons_append]
  exact ssnMatch_none_nondigit w _ _ (hdg _ (List.get_mem tg j hj))

theorem ccMatch_none_tagpos (tg : List Char) (hdg : ∀ c ∈ tg, isDigit c = false)
    (j : Nat) (hj : j < tg.length) (w : Bool) (out : List Char) :
    ccMatch w (tg.drop j ++ out) = none := by
  have hget : tg.get? j = some (tg.get ⟨j, hj⟩) := List.get?_eq_get hj
  have hdc := drop_eq_cons_of_get? tg j _ hget
  rw [hdc, List.cons_append]
  exact ccMatch_none_nondigit w _ _ (hdg _ (List.get_mem tg j hj))

theorem phMatch_none_tagpos (tg : List Char)
    (hdg : ∀ c ∈ tg, isDigit c = false ∧ (c == '(') = false)
    (j : Nat) (hj : j < tg.length) (w : Bool) (out : List Char) :
    phMatch w (tg.drop j ++ out) = none := by
  have hget : tg.get? j = some (tg.get ⟨j, hj⟩) := List.get?_eq_get hj
  have hdc := drop_eq_cons_of_get? tg j _ hget
  rw [hdc, List.cons_append]
  exact phMatch_none_badfirst w _ _ (hdg _ (List.get_mem tg j hj)).1
    (hdg _ (List.get_mem tg j hj)).2

theorem em_none_tagtail (tb : List Char) (hmid : ∀ c ∈ tb.drop 1, localCls c = true)
    (j : Nat) (hj1 : 1 ≤ j) (hj2 : j ≤ tb.length) (w : Bool) (out : List Char) :
    emMatch w ((tb ++ ['>']).drop j ++ out) = none := by
  rw [List.drop_append_of_le_length hj2, List.append_assoc, List.singleton_append]
  apply emMatch_none_gtTail
  intro x hx
  apply hmid
  have hdd : tb.drop j = (tb.drop 1).drop (j - 1) := by
    rw [List.drop_drop]
    congr 1
    omega
  rw [hdd] at hx
  exact List.drop_subset _ _ hx

theorem emMatch_none_tagEM (j : Nat) (hj1 : 1 ≤ j) (hj2 : j < tagEM.length) (w : Bool)
    (out : List Char) : emMatch w (tagEM.drop j ++ out) = none := by
  have h11 : tagEM.length = 11 := rfl
  exact em_none_tagtail ['<', 'P', 'I', 'I', '_', 'E', 'M', 'A', 'I', 'L'] (by decide)
    j hj1 (by simp; omega) w out

theorem emMatch_none_tagPH (j : Nat) (hj1 : 1 ≤ j) (hj2 : j < tagPH.length) (w : Bool)
    (out : List Char) : emMatch w (tagPH.drop j ++ out) = none := by
  have h11 : tagPH.length = 11 := rfl
  exact em_none_tagtail ['<', 'P', 'I', 'I', '_', 'P', 'H', 'O', 'N', 'E'] (by decide)
    j hj1 (by simp; omega) w out

theorem emMatch_none_tagCC (j : Nat) (hj1 : 1 ≤ j) (hj2 : j < tagCC.length) (w : Bool)
    (out : List Char) : emMatch w (tagCC.drop j ++ out) = none := by
  have h17 : tagCC.length = 17 := rfl
  exact em_none_tagtail ['<', 'P', 'I', 'I', '_', 'C', 'R', 'E', 'D', 'I', 'T', '_', 'C',
    'A', 'R', 'D'] (by decide) j hj1 (by simp; omega) w out

theorem emMatch_none_tagSSN (j : Nat) (hj1 : 1 ≤ j) (hj2 : j < tagSSN.length) (w : Bool)
    (out : List Char) : emMatch w (tagSSN.drop j ++ out) = none := by
  have h9 : tagSSN.length = 9 := rfl
  exact em_none_tagtail ['<', 'P', 'I', 'I', '_', 'S', 'S', 'N'] (by decide)
    j hj1 (by simp; omega) w out

theorem wAfter_tagEM (w : Bool) : wAfter w tagEM = false := rfl

theorem wAfter_tagPH (w : Bool) : wAfter w tagPH = false := rfl

theorem wAfter_tagCC (w : Bool) : wAfter w tagCC = false := rfl

theorem wAfter_tagSSN (w : Bool) : wAfter w tagSSN = false := rfl

/-! ### Each pass of the fallback removes its own matches and preserves the
absence of matches of the earlier passes -/

theorem subst_scanRel_em (l : List Char) :
    ScanRel emMatch tagEM false l (subst emMatch tagEM l) :=
  scanAux_rel emMatch tagEM emMatch_pos l.length false l (Nat.le_refl _)

theorem subst_scanRel_ph (l : List Char) :
    ScanRel phMatch tagPH false l (subst phMatch tagPH l) :=
  scanAux_rel phMatch tagPH phMatch_pos l.length false l (Nat.le_refl _)

theorem subst_scanRel_cc (l : List Char) :
    ScanRel ccMatch tagCC false l (subst ccMatch tagCC l) :=
  scanAux_rel ccMatch tagCC ccMatch_pos l.length false l (Nat.le_refl _)

theorem subst_scanRel_ssn (l : List Char) :
    ScanRel ssnMatch tagSSN false l (subst ssnMatch tagSSN l) :=
  scanAux_rel ssnMatch tagSSN ssnMatch_pos l.length false l (Nat.le_refl _)

theorem noM_em_redact (l : List Char) : NoM emMatch false (redactL l) := by
  have h1 : NoM emMatch false (subst emMatch tagEM l) :=
    scan_noM emMatch emMatch tagEM emMatch_none_nil emMatch_none_nobdry
      (fun w out2 => emMatch_none_notlocal w '<' _ (by decide))
      emMatch_none_tagEM emMatch_transport emMatch_no_lt emMatch_last_word
      (fun w l' k h => (emMatch_pos w l' k h).1)
      emMatch_start_bdry emMatch_end_bdry ⟨_, rfl⟩ wAfter_tagEM
      false l _ (subst_scanRel_em l) (Or.inl fun _ _ => rfl) false (Or.inl rfl)
  have h2 : NoM emMatch false (subst phMatch tagPH (subst emMatch tagEM l)) :=
    scan_noM emMatch phMatch tagPH emMatch_none_nil emMatch_none_nobdry
      (fun w out2 => emMatch_none_notlocal w '<' _ (by decide))
      emMatch_none_tagPH emMatch_transport emMatch_no_lt emMatch_last_word
      (fun w l' k h => (emMatch_pos w l' k h).1)
      phMatch_start_bdry phMatch_end_bdry ⟨_, rfl⟩ wAfter_tagPH
      false _ _ (subst_scanRel_ph _) (Or.inr h1) false (Or.inl rfl)
  have h3 : NoM emMatch false
      (subst ccMatch tagCC (subst phMatch tagPH (subst emMatch tagEM l))) :=
    scan_noM emMatch ccMatch tagCC emMatch_none_nil emMatch_none_nobdry
      (fun w out2 => emMatch_none_notlocal w '<' _ (by decide))
      emMatch_none_tagCC emMatch_transport emMatch_no_lt emMatch_last_word
      (fun w l' k h => (emMatch_pos w l' k h).1)
      ccMatch_start_bdry ccMatch_end_bdry ⟨_, rfl⟩ wAfter_tagCC
      false _ _ (subst_scanRel_cc _) (Or.inr h2) false (Or.inl rfl)
  exact scan_noM emMatch ssnMatch tagSSN emMatch_none_nil emMatch_none_nobdry
    (fun w out2 => emMatch_none_notlocal w '<' _ (by decide))
    emMatch_none_tagSSN emMatch_transport emMatch_no_lt emMatch_last_word
    (fun w l' k h => (emMatch_pos w l' k h).1)
    ssnMatch_start_bdry ssnMatch_end_bdry ⟨_, rfl⟩ wAfter_tagSSN
    false _ _ (subst_scanRel_ssn _) (Or.inr h3) false (Or.inl rfl)

theorem noM_ph_redact (l : List Char) : NoM phMatch false (redactL l) := by
  have h2 : NoM phMatch false (subst phMatch tagPH (subst emMatch tagEM l)) :=
    scan_noM phMatch phMatch tagPH phMatch_none_nil phMatch_none_nobdry
      (fun w out2 => phMatch_none_badfirst w '<' _ (by decide) (by decide))
      (fun j hj1 hj2 w o => phMatch_none_tagpos tagPH (by decide) j hj2 w o)
      phMatch_transport phMatch_no_lt phMatch_last_word
      (fun w l' k h => (phMatch_pos w l' k h).1)
      phMatch_start_bdry phMatch_end_bdry ⟨_, rfl⟩ wAfter_tagPH
      false _ _ (subst_scanRel_ph _) (Or.inl fun _ _ => rfl) false (Or.inl rfl)
  have h3 : NoM phMatch false
      (subst ccMatch tagCC (subst phMatch tagPH (subst emMatch tagEM l))) :=
    scan_noM phMatch ccMatch tagCC phMatch_none_nil phMatch_none_nobdry
      (fun w out2 => phMatch_none_badfirst w '<' _ (by decide) (by decide))
      (fun j hj1 hj2 w o => phMatch_none_tagpos tagCC (by decide) j hj2 w o)
      phMatch_transport phMatch_no_lt phMatch_last_word
      (fun w l' k h => (phMatch_pos w l' k h).1)
      ccMatch_start_bdry ccMatch_end_bdry ⟨_, rfl⟩ wAfter_tagCC
      false _ _ (subst_scanRel_cc _) (Or.inr h2) false (Or.inl rfl)
  exact scan_noM phMatch ssnMatch tagSSN phMatch_none_nil phMatch_none_nobdry
    (fun w out2 => phMatch_none_badfirst w '<' _ (by decide) (by decide))
    (fun j hj1 hj2 w o => phMatch_none_tagpos tagSSN (by decide) j hj2 w o)
    phMatch_transport phMatch_no_lt phMatch_last_word
    (fun w l' k h => (phMatch_pos w l' k h).1)
    ssnMatch_start_bdry ssnMatch_end_bdry ⟨_, rfl⟩ wAfter_tagSSN
    false _ _ (subst_scanRel_ssn _) (Or.inr h3) false (Or.inl rfl)

theorem noM_cc_redact (l : List Char) : NoM ccMatch false (redactL l) := by
  have h3 : NoM ccMatch false
      (subst ccMatch tagCC (subst phMatch tagPH (subst emMatch tagEM l))) :=
    scan_noM ccMatch ccMatch tagCC ccMatch_none_nil ccMatch_none_nobdry
      (fun w out2 => ccMatch_none_nondigit w '<' _ (by decide))
      (fun j hj1 hj2 w o => ccMatch_none_tagpos tagCC (by decide) j hj2 w o)
      ccMatch_transport ccMatch_no_lt ccMatch_last_word
      (fun w l' k h => (ccMatch_pos w l' k h).1)
      ccMatch_start_bdry ccMatch_end_bdry ⟨_, rfl⟩ wAfter_tagCC
      false _ _ (subst_scanRel_cc _) (Or.inl fun _ _ => rfl) false (Or.inl rfl)
  exact scan_noM ccMatch ssnMatch tagSSN ccMatch_none_nil ccMatch_none_nobdry
    (fun w out2 => ccMatch_none_nondigit w '<' _ (by decide))
    (fun j hj1 hj2 w o => ccMatch_none_tagpos tagSSN (by decide) j hj2 w o)
    ccMatch_transport ccMatch_no_lt ccMatch_last_word
    (fun w l' k h => (ccMatch_pos w l' k h).1)
    ssnMatch_start_bdry ssnMatch_end_bdry ⟨_, rfl⟩ wAfter_tagSSN
    false _ _ (subst_scanRel_ssn _) (Or.inr h3) false (Or.inl rfl)

theorem noM_ssn_redact (l : List Char) : NoM ssnMatch false (redactL l) :=
  scan_noM ssnMatch ssnMatch tagSSN ssnMatch_none_nil ssnMatch_none_nobdry
    (fun w out2 => ssnMatch_none_nondigit w '<' _ (by decide))
    (fun j hj1 hj2 w o => ssnMatch_none_tagpos tagSSN (by decide) j hj2 w o)
    ssnMatch_transport ssnMatch_no_lt ssnMatch_last_word
    (fun w l' k h => (ssnMatch_pos w l' k h).1)
    ssnMatch_start_bdry ssnMatch_end_bdry ⟨_, rfl⟩ wAfter_tagSSN
    false _ _ (subst_scanRel_ssn _) (Or.inl fun _ _ => rfl) false (Or.inl rfl)

/-- List-level idempotence of the fallback redaction. -/
theorem redactL_idem (l : List Char) : redactL (redactL l) = redactL l := by
  show subst ssnMatch tagSSN (subst ccMatch tagCC (subst phMatch tagPH
    (subst emMatch tagEM (redactL l)))) = redactL l
  rw [noM_subst_id emMatch tagEM (redactL l) (noM_em_redact l),
    noM_subst_id phMatch tagPH (redactL l) (noM_ph_redact l),
    noM_subst_id ccMatch tagCC (redactL l) (noM_cc_redact l),
    noM_subst_id ssnMatch tagSSN (redactL l) (noM_ssn_redact l)]

/-- C4: the deterministic pattern strategy of `processor.py` lines 126–138 —
the fixed sequence of email, phone, credit-card and SSN regex substitutions —
is idempotent: for every input string, applying the redaction to its own
output yields the same result, `redact(redact(t)) = redact(t)`. -/
theorem c4_redact_idempotent (s : String) : redactText (redactText s) = redactText s := by
  unfold redactText
  rw [show ((redactL s.toList).asString).toList = redactL s.toList from rfl, redactL_idem]

end PiiMask
